import Mathlib

/-!
# id_task: a verification development

Shallow embedding of `id_task.go` (package `idtask`).

* `New` and `ExecuteST` are pure functions of the pipeline and the sink state.
* `ExecuteMT` starts goroutines, so it is embedded as a transition system. A
  configuration `Sys` holds the pipeline fields, the program counter of the
  calling goroutine (the dispatcher), the state of every worker goroutine, the
  state of the collector goroutine and the counter of the `WaitGroup`. `step`
  performs one atomic action of one goroutine and is `none` when that goroutine
  is blocked or has ended. A schedule is a list of goroutine choices, `run`
  folds `step` over it; "every interleaving" is "every schedule".
* A sink is the `IdTaskOutput` interface: three methods acting on a sink state.
  A configuration also keeps the history `calls` of the sink methods invoked
  so far, so that "the sink observed exactly these calls" is a statement about
  `calls`.

Channel semantics follow the Go specification: a send on a full buffered
channel and a receive on an empty open one block; a receive on an empty closed
channel ends the `range` loop; send or receive on a `nil` channel blocks for
ever; `close` of a `nil` or closed channel and a send on a closed channel
panic; `make` panics for a negative size and for a size of `2 ^ 61` or more;
`WaitGroup.Add` panics when its 32-bit counter would reach `2 ^ 31` and `Done`
panics on a zero counter; the unbuffered `waitOutputs` is a rendezvous of the
collector's send with the dispatcher's receive. A panic in any goroutine ends
the program.
With `numWorkers = 0` both queues are unbuffered and no worker exists, so no
send on them can complete, which is what a buffer of capacity 0 gives.

Assumed and not modelled: steps of different goroutines are sequentially
consistent; `transform` and the sink methods return (they are total
functions); the machine has the memory for the channels and goroutines the
program asks for. Every theorem that says a call does not panic or runs to its
end assumes `numWorkers < 2 ^ 31`, below both limits above.

Go `int` values are modelled by `Int`. The loop counters only count upwards
to a bound that is itself an `int`, so they never wrap; the one
multiplication (`runtime.NumCPU()*2`) is wrapped to 64 bits explicitly.
-/

namespace idtask

/-! ## Data model -/

/-- One invocation of a method of the `IdTaskOutput` interface. -/
inductive SinkCall (T : Type) where
  | OutputBegin : SinkCall T
  | OutputUpdate (value : T) : SinkCall T
  | OutputFinish : SinkCall T
  deriving DecidableEq, Repr

/-- The interface `IdTaskOutput[T]`: three methods, each acting on the state
`S` of the object that implements it. -/
structure IdTaskOutput (T S : Type) where
  OutputBegin : S → S
  OutputUpdate : T → S → S
  OutputFinish : S → S

/-- A buffered Go channel: queued elements (oldest first), capacity, and
whether `close` has been called. -/
structure Chan (α : Type) where
  buf : List α
  cap : Nat
  closed : Bool
  deriving DecidableEq, Repr

/-- The function type `IdTaskTransform[T]`. -/
abbrev IdTaskTransform (T : Type) := Int → T

/-- The struct `IdTask[T]`. A channel field is `none` for Go's `nil`; a
non-nil field holds the channel itself, which is sound because every access to
the two channels goes through these fields. -/
structure IdTask (T S : Type) where
  transform : IdTaskTransform T
  output : IdTaskOutput T S
  numWorkers : Int
  inputChan : Option (Chan Int)
  outputChan : Option (Chan T)

/-- 64-bit two's-complement wrap-around of Go `int` arithmetic. -/
def wrapInt (x : Int) : Int := (x + 2 ^ 63) % 2 ^ 64 - 2 ^ 63

/-- The constructor `New` (lines 24-33). `numCPU` is the value returned by
`runtime.NumCPU()`. -/
def New {T S : Type} (transform : Int → T) (output : IdTaskOutput T S)
    (numWorkers : Int) (numCPU : Int) : IdTask T S :=
  let numWorkers := if numWorkers ≤ 0 then min 16 (wrapInt (numCPU * 2)) else numWorkers
  { transform := transform
    output := output
    numWorkers := numWorkers
    inputChan := none
    outputChan := none }

/-! ## Sequential mode -/

/-- The `for i := 0; i < numItems; i++` loop of `ExecuteST` (lines 41-43),
entered with counter `i` and sink state `s`. -/
def ExecuteST.loop {T S : Type} (task : IdTask T S) (numItems : Int) (i : Int) (s : S) : S :=
  if i < numItems then
    ExecuteST.loop task numItems (i + 1) (task.output.OutputUpdate (task.transform i) s)
  else s
termination_by (numItems - i).toNat
decreasing_by omega

/-- The method `ExecuteST` (lines 39-45), as a function of the sink state. -/
def ExecuteST {T S : Type} (task : IdTask T S) (numItems : Int) (s : S) : S :=
  task.output.OutputFinish (ExecuteST.loop task numItems 0 (task.output.OutputBegin s))

/-- Performs one sink call on a sink state. -/
def SinkCall.apply {T S : Type} (output : IdTaskOutput T S) : SinkCall T → S → S
  | .OutputBegin, s => output.OutputBegin s
  | .OutputUpdate v, s => output.OutputUpdate v s
  | .OutputFinish, s => output.OutputFinish s

/-- Performs a sequence of sink calls, first call first. -/
def replay {T S : Type} (output : IdTaskOutput T S) (calls : List (SinkCall T)) (s : S) : S :=
  calls.foldl (fun st c => c.apply output st) s

/-- The sink that only records the calls made on it. -/
def recorder (T : Type) : IdTaskOutput T (List (SinkCall T)) where
  OutputBegin := fun log => log ++ [SinkCall.OutputBegin]
  OutputUpdate := fun v log => log ++ [SinkCall.OutputUpdate v]
  OutputFinish := fun log => log ++ [SinkCall.OutputFinish]

/-- The indices `i, i+1, ..., n-1` in increasing order (empty when `n ≤ i`). -/
def ids (i n : Int) : List Int :=
  if i < n then i :: ids (i + 1) n else []
termination_by (n - i).toNat
decreasing_by omega

/-- The call sequence `OutputBegin, OutputUpdate(f 0), ..., OutputUpdate(f (n-1)),
OutputFinish`. -/
def inOrderCalls {T : Type} (f : Int → T) (n : Int) : List (SinkCall T) :=
  SinkCall.OutputBegin ::
    ((List.range n.toNat).map (fun (k : Nat) => SinkCall.OutputUpdate (f (k : Int))) ++
      [SinkCall.OutputFinish])

/-! ## Concurrent mode: the goroutines of `ExecuteMT` -/

/-- Program counter of the goroutine that called `ExecuteMT`: the statement it
executes next. -/
inductive DPc where
  /-- line 48: the guard on `inputChan` / `outputChan` -/
  | guard
  /-- line 52: `task.inputChan = make(chan int, task.numWorkers)` -/
  | makeIn
  /-- line 53: `task.outputChan = make(chan T, task.numWorkers)` -/
  | makeOut
  /-- lines 56-62: head of the worker loop with counter `i` -/
  | spawn (i : Int)
  /-- lines 64-70: `waitOutputs` is made and the collector goroutine started -/
  | spawnOut
  /-- lines 72-74: head of the dispatch loop with counter `i` -/
  | feed (i : Int)
  /-- line 75: `close(task.inputChan)` -/
  | closeIn
  /-- line 77: `waitTransforms.Wait()` -/
  | waitWorkers
  /-- line 78: `close(task.outputChan)` -/
  | closeOut
  /-- line 80: `<-waitOutputs` -/
  | waitOut
  /-- line 82: `task.inputChan = nil` -/
  | clearIn
  /-- line 83: `task.outputChan = nil` -/
  | clearOut
  /-- `ExecuteMT` has returned to its caller -/
  | returned
  /-- a goroutine panicked -/
  | panicked
  deriving DecidableEq, Repr

/-- State of one worker goroutine (lines 58-61 running
`ExecuteTransformWorker`, lines 86-90). -/
inductive WState (T : Type) where
  /-- at `range task.inputChan`, about to receive -/
  | recv : WState T
  /-- received `id`, about to evaluate `task.transform(id)` -/
  | call (id : Int) : WState T
  /-- about to send the value on `task.outputChan` -/
  | send (v : T) : WState T
  /-- the loop ended, the deferred `waitTransforms.Done()` is next -/
  | done : WState T
  /-- the goroutine has ended -/
  | exited : WState T
  deriving DecidableEq, Repr

/-- State of the collector goroutine (lines 65-70 running `ExecuteOutput`,
lines 92-98). -/
inductive CState (T : Type) where
  /-- about to call `OutputBegin` -/
  | begin : CState T
  /-- at `range task.outputChan`, about to receive -/
  | recv : CState T
  /-- received `v`, about to call `OutputUpdate(v)` -/
  | update (v : T) : CState T
  /-- the loop ended, about to call `OutputFinish` -/
  | finish : CState T
  /-- `ExecuteOutput` returned, the deferred `waitOutputs <- 0` is next -/
  | signal : CState T
  /-- the goroutine has ended -/
  | exited : CState T
  deriving DecidableEq, Repr

/-- The goroutine that takes the next step. -/
inductive Action where
  | dispatcher
  | worker (i : Nat)
  | collector
  deriving DecidableEq, Repr

/-- A configuration of one `ExecuteMT` call. -/
structure Sys (T S : Type) where
  /-- the pipeline the method was called on -/
  task : IdTask T S
  /-- the argument `numItems` -/
  numItems : Int
  /-- program counter of the calling goroutine -/
  pc : DPc
  /-- counter of the `WaitGroup` `waitTransforms` -/
  waitTransforms : Nat
  /-- the worker goroutines started so far -/
  workers : List (WState T)
  /-- the collector goroutine, once started -/
  collector : Option (CState T)
  /-- state of the sink object -/
  sink : S
  /-- history of the calls made on the sink -/
  calls : List (SinkCall T)

/-- One step of `ExecuteOutput` (lines 92-98) on the result queue `ch`:
the new collector state, queue, sink state and call history, or `none` when the
collector is blocked. The deferred send on `waitOutputs` is not part of
`ExecuteOutput`. -/
def ExecuteOutput.step {T S : Type} (output : IdTaskOutput T S) (c : CState T)
    (ch : Option (Chan T)) (sink : S) (calls : List (SinkCall T)) :
    Option (CState T × Option (Chan T) × S × List (SinkCall T)) :=
  match c with
  | .begin => some (.recv, ch, output.OutputBegin sink, calls ++ [.OutputBegin])
  | .recv =>
    match ch with
    | none => none
    | some q =>
      match q.buf with
      | v :: rest => some (.update v, some { q with buf := rest }, sink, calls)
      | [] => if q.closed then some (.finish, ch, sink, calls) else none
  | .update v => some (.recv, ch, output.OutputUpdate v sink, calls ++ [.OutputUpdate v])
  | .finish => some (.signal, ch, output.OutputFinish sink, calls ++ [.OutputFinish])
  | .signal => none
  | .exited => none

/-- The channel size from which `make(chan int, size)` panics with "makechan:
size out of range" because the buffer of 8-byte elements no longer fits the
address space: `2 ^ 61`. -/
def makeLimit : Int := 2305843009213693952

/-- The counter value a `sync.WaitGroup` cannot reach: its counter is a signed
32-bit integer, so the `Add(1)` that would make it `2 ^ 31` panics with "sync:
negative WaitGroup counter". -/
def waitGroupLimit : Nat := 2147483648

/-- One step of the calling goroutine of `ExecuteMT` (lines 47-84). `make`
panics for a negative size and for a size of `makeLimit` or more. One iteration
of the worker loop (`Add(1)` and the `go` statement) is one step; it panics
when `Add(1)` would take the counter to `waitGroupLimit`, and then no goroutine
is started. -/
def stepDispatcher {T S : Type} (s : Sys T S) : Option (Sys T S) :=
  match s.pc with
  | .guard =>
    if s.task.inputChan.isSome || s.task.outputChan.isSome then
      some { s with pc := .panicked }
    else some { s with pc := .makeIn }
  | .makeIn =>
    if s.task.numWorkers < 0 ∨ makeLimit ≤ s.task.numWorkers then
      some { s with pc := .panicked }
    else
      some { s with
        task := { s.task with inputChan := some ⟨[], s.task.numWorkers.toNat, false⟩ }
        pc := .makeOut }
  | .makeOut =>
    if s.task.numWorkers < 0 ∨ makeLimit ≤ s.task.numWorkers then
      some { s with pc := .panicked }
    else
      some { s with
        task := { s.task with outputChan := some ⟨[], s.task.numWorkers.toNat, false⟩ }
        pc := .spawn 0 }
  | .spawn i =>
    if i < s.task.numWorkers then
      if s.waitTransforms + 1 < waitGroupLimit then
        some { s with
          waitTransforms := s.waitTransforms + 1
          workers := s.workers ++ [.recv]
          pc := .spawn (i + 1) }
      else some { s with pc := .panicked }
    else some { s with pc := .spawnOut }
  | .spawnOut => some { s with collector := some .begin, pc := .feed 0 }
  | .feed i =>
    if i < s.numItems then
      match s.task.inputChan with
      | none => none
      | some q =>
        if q.closed then some { s with pc := .panicked }
        else if q.buf.length < q.cap then
          some { s with
            task := { s.task with inputChan := some { q with buf := q.buf ++ [i] } }
            pc := .feed (i + 1) }
        else none
    else some { s with pc := .closeIn }
  | .closeIn =>
    match s.task.inputChan with
    | none => some { s with pc := .panicked }
    | some q =>
      if q.closed then some { s with pc := .panicked }
      else
        some { s with
          task := { s.task with inputChan := some { q with closed := true } }
          pc := .waitWorkers }
  | .waitWorkers => if s.waitTransforms = 0 then some { s with pc := .closeOut } else none
  | .closeOut =>
    match s.task.outputChan with
    | none => some { s with pc := .panicked }
    | some q =>
      if q.closed then some { s with pc := .panicked }
      else
        some { s with
          task := { s.task with outputChan := some { q with closed := true } }
          pc := .waitOut }
  | .waitOut =>
    match s.collector with
    | some .signal => some { s with collector := some .exited, pc := .clearIn }
    | _ => none
  | .clearIn => some { s with task := { s.task with inputChan := none }, pc := .clearOut }
  | .clearOut => some { s with task := { s.task with outputChan := none }, pc := .returned }
  | .returned => none
  | .panicked => none

/-- One step of worker goroutine number `i`: the closure of lines 58-61, which
runs `ExecuteTransformWorker` (lines 86-90) and then the deferred
`waitTransforms.Done()`. -/
def stepWorker {T S : Type} (i : Nat) (s : Sys T S) : Option (Sys T S) :=
  match s.workers.get? i with
  | none => none
  | some .recv =>
    match s.task.inputChan with
    | none => none
    | some q =>
      match q.buf with
      | id :: rest =>
        some { s with
          task := { s.task with inputChan := some { q with buf := rest } }
          workers := s.workers.set i (.call id) }
      | [] => if q.closed then some { s with workers := s.workers.set i .done } else none
  | some (.call id) => some { s with workers := s.workers.set i (.send (s.task.transform id)) }
  | some (.send v) =>
    match s.task.outputChan with
    | none => none
    | some q =>
      if q.closed then some { s with pc := .panicked }
      else if q.buf.length < q.cap then
        some { s with
          task := { s.task with outputChan := some { q with buf := q.buf ++ [v] } }
          workers := s.workers.set i .recv }
      else none
  | some .done =>
    if s.waitTransforms = 0 then some { s with pc := .panicked }
    else
      some { s with
        waitTransforms := s.waitTransforms - 1
        workers := s.workers.set i .exited }
  | some .exited => none

/-- One step of the collector goroutine: the closure of lines 65-70, which runs
`ExecuteOutput` (lines 92-98) and then the deferred `waitOutputs <- 0`, a
rendezvous with the dispatcher's `<-waitOutputs` of line 80. -/
def stepCollector {T S : Type} (s : Sys T S) : Option (Sys T S) :=
  match s.collector with
  | none => none
  | some .signal =>
    match s.pc with
    | .waitOut => some { s with collector := some .exited, pc := .clearIn }
    | _ => none
  | some c =>
    match ExecuteOutput.step s.task.output c s.task.outputChan s.sink s.calls with
    | none => none
    | some (c', ch', sink', calls') =>
      some { s with
        task := { s.task with outputChan := ch' }
        collector := some c'
        sink := sink'
        calls := calls' }

/-- One step of the configuration: the chosen goroutine performs its next
action; `none` when it is blocked, has ended, or the program has crashed. -/
def step {T S : Type} (a : Action) (s : Sys T S) : Option (Sys T S) :=
  if s.pc = .panicked then none
  else
    match a with
    | .dispatcher => stepDispatcher s
    | .worker i => stepWorker i s
    | .collector => stepCollector s

/-- Runs a schedule; `none` when it asks a goroutine that cannot move. -/
def run {T S : Type} : List Action → Sys T S → Option (Sys T S)
  | [], s => some s
  | a :: rest, s => (step a s).bind (run rest)

/-- The configuration in which `task.ExecuteMT(numItems)` has just been
called (lines 47-84): no goroutine started, `WaitGroup` at zero. -/
def ExecuteMT {T S : Type} (task : IdTask T S) (numItems : Int) (sink : S)
    (calls : List (SinkCall T)) : Sys T S :=
  { task := task
    numItems := numItems
    pc := .guard
    waitTransforms := 0
    workers := []
    collector := none
    sink := sink
    calls := calls }

/-- The method `Execute` (lines 35-37): it calls `task.ExecuteMT(numItems)`. -/
def Execute {T S : Type} (task : IdTask T S) (numItems : Int) (sink : S)
    (calls : List (SinkCall T)) : Sys T S :=
  ExecuteMT task numItems sink calls

/-! ## Bookkeeping used to state the invariant of `ExecuteMT` -/

/-- Position of a program counter in the straight-line order of `ExecuteMT`. -/
def DPc.phase : DPc → Nat
  | .guard => 0
  | .makeIn => 1
  | .makeOut => 2
  | .spawn _ => 3
  | .spawnOut => 4
  | .feed _ => 5
  | .closeIn => 6
  | .waitWorkers => 7
  | .closeOut => 8
  | .waitOut => 9
  | .clearIn => 10
  | .clearOut => 11
  | .returned => 12
  | .panicked => 13

/-- The indices the dispatch loop has not sent yet. -/
def DPc.pendingIds (n : Int) : DPc → List Int
  | .guard => ids 0 n
  | .makeIn => ids 0 n
  | .makeOut => ids 0 n
  | .spawn _ => ids 0 n
  | .spawnOut => ids 0 n
  | .feed i => ids i n
  | _ => []

/-- The value a worker is holding between its receive and its send. -/
def WState.held {T : Type} (f : Int → T) : WState T → Multiset T
  | .call id => {f id}
  | .send v => {v}
  | _ => 0

/-- Counts a worker that has not ended. -/
def WState.liveOne {T : Type} : WState T → Nat
  | .exited => 0
  | _ => 1

/-- Counts a worker that has left its loop. -/
def WState.finOne {T : Type} : WState T → Nat
  | .done => 1
  | .exited => 1
  | _ => 0

/-- The value the collector has received and not yet passed to the sink. -/
def CState.pending {T : Type} : Option (CState T) → List T
  | some (.update v) => [v]
  | _ => []

/-- Progress of the collector: 0 not started, 1 inside `ExecuteOutput` before
the loop ended, 2 after the loop ended, 3 goroutine ended. -/
def CState.stage {T : Type} : Option (CState T) → Nat
  | none => 0
  | some .begin => 1
  | some .recv => 1
  | some (.update _) => 1
  | some .finish => 2
  | some .signal => 2
  | some .exited => 3

/-- The sink calls the collector has made when it is in state `c` and has
passed the values `de` to the sink. -/
def sinkLog {T : Type} : Option (CState T) → List T → List (SinkCall T)
  | none, _ => []
  | some .begin, _ => []
  | some .recv, de => SinkCall.OutputBegin :: de.map SinkCall.OutputUpdate
  | some (.update _), de => SinkCall.OutputBegin :: de.map SinkCall.OutputUpdate
  | some .finish, de => SinkCall.OutputBegin :: de.map SinkCall.OutputUpdate
  | some .signal, de =>
    SinkCall.OutputBegin :: (de.map SinkCall.OutputUpdate ++ [SinkCall.OutputFinish])
  | some .exited, de =>
    SinkCall.OutputBegin :: (de.map SinkCall.OutputUpdate ++ [SinkCall.OutputFinish])

/-- The invariant of one `ExecuteMT(n)` call on the pipeline `task0` (both
queues unset) started with sink state `sink0` and call history `calls0`.
`de` are the values delivered to the sink so far, `ib` and `ob` the contents of
the work queue and of the result queue. -/
structure Inv {T S : Type} (task0 : IdTask T S) (n : Int) (sink0 : S)
    (calls0 : List (SinkCall T)) (s : Sys T S) (de : List T) (ib : List Int) (ob : List T) :
    Prop where
  transform_eq : s.task.transform = task0.transform
  output_eq : s.task.output = task0.output
  numWorkers_eq : s.task.numWorkers = task0.numWorkers
  numItems_eq : s.numItems = n
  inChan : s.task.inputChan =
    if 2 ≤ s.pc.phase ∧ s.pc.phase ≤ 10 then
      some ⟨ib, task0.numWorkers.toNat, decide (7 ≤ s.pc.phase)⟩
    else none
  outChan : s.task.outputChan =
    if 3 ≤ s.pc.phase ∧ s.pc.phase ≤ 11 then
      some ⟨ob, task0.numWorkers.toNat, decide (9 ≤ s.pc.phase)⟩
    else none
  noPanic : s.pc.phase ≤ 12
  inEmpty : s.pc.phase ≤ 1 ∨ 8 ≤ s.pc.phase → ib = []
  outEmpty : s.pc.phase ≤ 2 ∨ 2 ≤ CState.stage s.collector → ob = []
  noWorkers : s.pc.phase ≤ 2 → s.workers = []
  spawning : ∀ i, s.pc = .spawn i → (s.workers.length : Int) = i ∧ i ≤ task0.numWorkers
  allWorkers : 4 ≤ s.pc.phase → (s.workers.length : Int) = task0.numWorkers
  waitGroup : s.waitTransforms = (s.workers.map WState.liveOne).sum
  finished : (s.workers.map WState.finOne).sum ≠ 0 → 7 ≤ s.pc.phase ∧ ib = []
  allExited : 8 ≤ s.pc.phase → (s.workers.map WState.liveOne).sum = 0
  collStarted : CState.stage s.collector = 0 ↔ s.pc.phase ≤ 4
  collFinishing : CState.stage s.collector = 2 → s.pc.phase = 9
  collExited : CState.stage s.collector = 3 ↔ 10 ≤ s.pc.phase
  noneDelivered : s.collector = none ∨ s.collector = some .begin → de = []
  calls_eq : s.calls = calls0 ++ sinkLog s.collector de
  sink_eq : s.sink = replay task0.output (sinkLog s.collector de) sink0
  accounted :
    ((de : Multiset T) + (CState.pending s.collector : Multiset T) + (ob : Multiset T) +
        (s.workers.map (WState.held task0.transform)).sum +
        ((ib.map task0.transform : List T) : Multiset T) +
        (((s.pc.pendingIds n).map task0.transform : List T) : Multiset T)) =
      (((ids 0 n).map task0.transform : List T) : Multiset T)

/-- Steps each goroutine still has to take, used to bound every schedule. -/
def DPc.rank (w n : Int) : DPc → Nat
  | .panicked => 0
  | .returned => 1
  | .clearOut => 2
  | .clearIn => 3
  | .waitOut => 4
  | .closeOut => 5
  | .waitWorkers => 6
  | .closeIn => 7
  | .feed i => 8 + 6 * (n - i).toNat
  | .spawnOut => 13 + 6 * n.toNat
  | .spawn i => 14 + 6 * n.toNat + 3 * (w - i).toNat
  | .makeOut => 15 + 6 * n.toNat + 3 * w.toNat
  | .makeIn => 16 + 6 * n.toNat + 3 * w.toNat
  | .guard => 17 + 6 * n.toNat + 3 * w.toNat

/-- Steps a worker still has to take, counting those for the value it holds. -/
def WState.rank {T : Type} : WState T → Nat
  | .recv => 2
  | .call _ => 6
  | .send _ => 5
  | .done => 1
  | .exited => 0

/-- Steps the collector still has to take, counting the one for the value it
holds. -/
def CState.rank {T : Type} : Option (CState T) → Nat
  | none => 0
  | some .begin => 4
  | some .recv => 3
  | some (.update _) => 4
  | some .finish => 2
  | some .signal => 1
  | some .exited => 0

/-- Number of elements queued in a channel field (`nil` holds none). -/
def queued {α : Type} : Option (Chan α) → Nat
  | none => 0
  | some q => q.buf.length

/-- An upper bound on the number of steps a configuration can still take. -/
def Sys.measure {T S : Type} (s : Sys T S) : Nat :=
  s.pc.rank s.task.numWorkers s.numItems + (s.workers.map WState.rank).sum +
    CState.rank s.collector + 5 * queued s.task.inputChan + 2 * queued s.task.outputChan

/-- Consecutive, non-overlapping `ExecuteMT` calls on one pipeline: each
entry is the argument of a call and the schedule its goroutines follow; the
next call starts from the pipeline, sink and history the previous one left
when it returned. `none` when a schedule is not executable or stops before its
call returned. -/
def callChain {T S : Type} :
    IdTask T S × S × List (SinkCall T) → List (Int × List Action) →
      Option (IdTask T S × S × List (SinkCall T))
  | st, [] => some st
  | st, (n, sched) :: rest =>
    match run sched (ExecuteMT st.1 n st.2.1 st.2.2) with
    | none => none
    | some s => if s.pc = .returned then callChain (s.task, s.sink, s.calls) rest else none

/-! ## The collector against an arbitrary producer -/

/-- An event on the result queue: a producer sends `v`, the queue is closed, or
the collector takes a step of `ExecuteOutput`. -/
inductive QAction (T : Type) where
  | push (v : T) : QAction T
  | close : QAction T
  | collector : QAction T
  deriving DecidableEq, Repr

/-- The collector, the result queue it reads, and the sink. -/
structure OutSys (T S : Type) where
  c : CState T
  ch : Option (Chan T)
  sink : S
  calls : List (SinkCall T)

/-- One event on the result queue: `none` when the event cannot happen now
(send on a full, closed or nil queue, second close, blocked collector). -/
def OutSys.step {T S : Type} (output : IdTaskOutput T S) (a : QAction T) (st : OutSys T S) :
    Option (OutSys T S) :=
  match a with
  | .push v =>
    match st.ch with
    | none => none
    | some q =>
      if q.closed then none
      else if q.buf.length < q.cap then some { st with ch := some { q with buf := q.buf ++ [v] } }
      else none
  | .close =>
    match st.ch with
    | none => none
    | some q => if q.closed then none else some { st with ch := some { q with closed := true } }
  | .collector =>
    match ExecuteOutput.step output st.c st.ch st.sink st.calls with
    | none => none
    | some (c', ch', sink', calls') => some ⟨c', ch', sink', calls'⟩

/-- Runs a sequence of events on the result queue. -/
def OutSys.run {T S : Type} (output : IdTaskOutput T S) :
    List (QAction T) → OutSys T S → Option (OutSys T S)
  | [], st => some st
  | a :: rest, st => (OutSys.step output a st).bind (OutSys.run output rest)

/-- The values sent on the result queue by a sequence of events, in order. -/
def arrivals {T : Type} : List (QAction T) → List T
  | [] => []
  | .push v :: rest => v :: arrivals rest
  | _ :: rest => arrivals rest

/-- The events in which a producer sends `v`, then the collector receives it
and passes it to the sink, for each `v` in turn. -/
def oneByOne {T : Type} : List T → List (QAction T)
  | [] => []
  | v :: rest => .push v :: .collector :: .collector :: oneByOne rest

/-- The invariant of the collector reading a result queue of capacity `cap`
against an arbitrary producer: `arrived` are the values sent so far, `de` those
already passed to the sink, `buf` the queue contents, `closed` whether the queue
has been closed. -/
structure OutInv {T S : Type} (output : IdTaskOutput T S) (cap : Nat) (sink0 : S)
    (st : OutSys T S) (arrived : List T) (de buf : List T) (closed : Bool) : Prop where
  chan : st.ch = some ⟨buf, cap, closed⟩
  fifo : arrived = de ++ (CState.pending (some st.c) ++ buf)
  drained : 2 ≤ CState.stage (some st.c) → buf = [] ∧ closed = true
  noneDelivered : st.c = .begin → de = []
  calls_eq : st.calls = sinkLog (some st.c) de
  sink_eq : st.sink = replay output (sinkLog (some st.c) de) sink0

/-! ## A concrete pipeline and schedule, used to instantiate the theorems -/

/-- A pipeline with two workers, the transform `i ↦ 10 * i + 7` and the
recording sink, as built by `New`. -/
def demoTask : IdTask Int (List (SinkCall Int)) :=
  New (fun i => 10 * i + 7) (recorder Int) 2 4

/-- The pipeline `New` returns for a requested worker count of `2 ^ 61`. -/
def hugeTask : IdTask Int (List (SinkCall Int)) :=
  New (fun i => 10 * i + 7) (recorder Int) 2305843009213693952 4

/-- A complete interleaving of `ExecuteMT(2)` on `demoTask` in which worker 1
sends its result before worker 0 does. -/
def demoSchedule : List Action :=
  [.dispatcher, .dispatcher, .dispatcher, .dispatcher, .dispatcher, .dispatcher, .dispatcher,
   .dispatcher, .dispatcher, .dispatcher, .dispatcher,
   .worker 0, .worker 1, .worker 1, .worker 1, .worker 0, .worker 0,
   .worker 0, .worker 0, .worker 1, .worker 1,
   .dispatcher, .dispatcher,
   .collector, .collector, .collector, .collector, .collector, .collector, .collector,
   .dispatcher, .dispatcher, .dispatcher]

/-! ## Sequential mode: `ExecuteST` -/

theorem ids_of_lt {i n : Int} (h : i < n) : ids i n = i :: ids (i + 1) n := by
  rw [ids]; simp [h]

theorem ids_of_not_lt {i n : Int} (h : ¬ i < n) : ids i n = [] := by
  rw [ids]; simp [h]

theorem ids_eq_range (k : Nat) : ∀ i n : Int, (n - i).toNat = k →
    ids i n = (List.range k).map (fun (j : Nat) => i + (j : Int)) := by
  induction k with
  | zero =>
    intro i n h
    rw [ids_of_not_lt (by omega)]; simp
  | succ k ih =>
    intro i n h
    rw [ids_of_lt (by omega), ih (i + 1) n (by omega), List.range_succ_eq_map]
    simp only [List.map_cons, List.map_map, Nat.cast_zero, add_zero]
    congr 1
    apply List.map_congr_left
    intro j _
    simp only [Function.comp_apply, Nat.succ_eq_add_one, Nat.cast_add, Nat.cast_one]
    omega

theorem ids_zero (n : Int) : ids 0 n = (List.range n.toNat).map (fun (j : Nat) => (j : Int)) := by
  rw [ids_eq_range n.toNat 0 n (by omega)]
  simp

theorem ids_length (i n : Int) : (ids i n).length = (n - i).toNat := by
  rw [ids_eq_range (n - i).toNat i n rfl, List.length_map, List.length_range]

theorem loop_eq_foldl {T S : Type} (task : IdTask T S) (n : Int) (k : Nat) :
    ∀ (i : Int) (s : S), (n - i).toNat = k →
      ExecuteST.loop task n i s =
        (ids i n).foldl (fun st j => task.output.OutputUpdate (task.transform j) st) s := by
  induction k with
  | zero =>
    intro i s h
    have hi : ¬ i < n := by omega
    rw [ExecuteST.loop, ids_of_not_lt hi]; simp [hi]
  | succ k ih =>
    intro i s h
    have hi : i < n := by omega
    rw [ExecuteST.loop, ids_of_lt hi, if_pos hi, ih (i + 1) _ (by omega)]
    rfl

theorem replay_append {T S : Type} (output : IdTaskOutput T S) (a b : List (SinkCall T)) (s : S) :
    replay output (a ++ b) s = replay output b (replay output a s) := by
  simp [replay, List.foldl_append]

theorem replay_updates {T S : Type} (output : IdTaskOutput T S) (vs : List T) (s : S) :
    replay output (vs.map SinkCall.OutputUpdate) s =
      vs.foldl (fun st v => output.OutputUpdate v st) s := by
  induction vs generalizing s with
  | nil => rfl
  | cons v vs ih => simpa [replay, SinkCall.apply] using ih (output.OutputUpdate v s)

theorem replay_recorder {T : Type} (calls log : List (SinkCall T)) :
    replay (recorder T) calls log = log ++ calls := by
  induction calls generalizing log with
  | nil => simp [replay]
  | cons c cs ih =>
    have h := ih (c.apply (recorder T) log)
    simp only [replay, List.foldl_cons] at h ⊢
    rw [h]
    cases c <;> simp [SinkCall.apply, recorder]

theorem ExecuteST_eq_replay {T S : Type} (task : IdTask T S) (n : Int) (s : S) :
    ExecuteST task n s = replay task.output (inOrderCalls task.transform n) s := by
  have hmap : (List.range n.toNat).map (fun (k : Nat) => SinkCall.OutputUpdate (task.transform (k : Int)))
      = ((ids 0 n).map task.transform).map SinkCall.OutputUpdate := by
    rw [ids_zero]; simp [List.map_map, Function.comp_def]
  unfold ExecuteST inOrderCalls
  rw [loop_eq_foldl task n n.toNat 0 _ (by omega), hmap]
  rw [show (SinkCall.OutputBegin :: (((ids 0 n).map task.transform).map SinkCall.OutputUpdate ++
        [SinkCall.OutputFinish]) : List (SinkCall T)) =
      [SinkCall.OutputBegin] ++ (((ids 0 n).map task.transform).map SinkCall.OutputUpdate ++
        [SinkCall.OutputFinish]) from rfl]
  rw [replay_append, replay_append, replay_updates, List.foldl_map]
  rfl

/-- C1: `ExecuteST(n)` makes exactly the sink calls `OutputBegin`,
`OutputUpdate(f 0)`, ..., `OutputUpdate(f (n-1))`, `OutputFinish`, in that
order and no others, for every transform, sink and integer `n`: on any sink the
final sink state is the one these calls produce, the recording sink records
exactly this sequence, and for `n = 0` it is `OutputBegin, OutputFinish`. -/
theorem ExecuteST_in_order {T S : Type} (task : IdTask T S) (n : Int) :
    (∀ s : S, ExecuteST task n s = replay task.output (inOrderCalls task.transform n) s) ∧
    (∀ (w : Int) (ic : Option (Chan Int)) (oc : Option (Chan T)) (log : List (SinkCall T)),
      ExecuteST ⟨task.transform, recorder T, w, ic, oc⟩ n log =
        log ++ (SinkCall.OutputBegin ::
          ((List.range n.toNat).map (fun (k : Nat) => SinkCall.OutputUpdate (task.transform (k : Int))) ++
            [SinkCall.OutputFinish]))) ∧
    (∀ (w : Int) (ic : Option (Chan Int)) (oc : Option (Chan T)),
      ExecuteST ⟨task.transform, recorder T, w, ic, oc⟩ 0 [] =
        [SinkCall.OutputBegin, SinkCall.OutputFinish]) := by
  refine ⟨ExecuteST_eq_replay task n, ?_, ?_⟩
  · intro w ic oc log
    rw [ExecuteST_eq_replay, replay_recorder]
    rfl
  · intro w ic oc
    rw [ExecuteST_eq_replay, replay_recorder]
    rfl

/-! ## The constructor `New` -/

theorem wrapInt_of_range {x : Int} (h1 : -(2 ^ 63) ≤ x) (h2 : x < 2 ^ 63) : wrapInt x = x := by
  unfold wrapInt
  omega

/-- C5: `New(transform, sink, w)` stores `transform` and the sink as given and
sets `numWorkers` to `min(16, 2*c)` when `w ≤ 0` and to `w` when `w > 0`, where
`c` is the CPU count reported by `runtime.NumCPU()` (any value whose double
fits a Go `int`). -/
theorem New_numWorkers {T S : Type} (transform : Int → T) (output : IdTaskOutput T S)
    (w c : Int) (hc : -(2 ^ 62) ≤ c ∧ c < 2 ^ 62) :
    (w ≤ 0 → (New transform output w c).numWorkers = min 16 (2 * c)) ∧
    (0 < w → (New transform output w c).numWorkers = w) ∧
    (New transform output w c).transform = transform ∧
    (New transform output w c).output = output := by
  have hw : wrapInt (c * 2) = 2 * c := by
    rw [wrapInt_of_range (by omega) (by omega)]; ring
  refine ⟨?_, ?_, rfl, rfl⟩
  · intro h; simp [New, h, hw]
  · intro h; simp [New, not_le.mpr h]

/-- `New` on 4 CPUs: a requested count of 0 yields 8 workers, of 3 yields 3. -/
theorem New_numWorkers_witness :
    (-(2 ^ 62) ≤ (4 : Int) ∧ (4 : Int) < 2 ^ 62) ∧
    (New (fun i => i) (recorder Int) 0 4).numWorkers = 8 ∧
    (New (fun i => i) (recorder Int) 3 4).numWorkers = 3 :=
  ⟨by decide,
   ((New_numWorkers (fun i => i) (recorder Int) 0 4 (by decide)).1 (by decide)).trans (by decide),
   (New_numWorkers (fun i => i) (recorder Int) 3 4 (by decide)).2.1 (by decide)⟩

/-! ## The invariant is preserved by every step of `ExecuteMT` -/
theorem get?_split {α : Type} : ∀ (ws : List α) (i : Nat) (w : α), ws.get? i = some w →
    ∃ l1 l2, ws = l1 ++ w :: l2 ∧ ∀ w', ws.set i w' = l1 ++ w' :: l2 := by
  intro ws
  induction ws with
  | nil => intro i w h; simp at h
  | cons a ws ih =>
    intro i w h
    cases i with
    | zero =>
      simp at h
      exact ⟨[], ws, by simp [h], fun w' => by simp⟩
    | succ i =>
      simp at h
      obtain ⟨l1, l2, h1, h2⟩ := ih i w (by simpa using h)
      exact ⟨a :: l1, l2, by simp [h1], fun w' => by simp [h2]⟩

theorem inv_init {T S : Type} (task : IdTask T S) (n : Int) (sink : S) (calls : List (SinkCall T))
    (hin : task.inputChan = none) (hout : task.outputChan = none) :
    Inv task n sink calls (ExecuteMT task n sink calls) [] [] [] := by
  constructor <;> simp [ExecuteMT, DPc.phase, hin, hout, CState.stage, sinkLog, replay,
    CState.pending, DPc.pendingIds]

theorem length_le_live_add_fin {T : Type} (ws : List (WState T)) :
    ws.length ≤ (ws.map WState.liveOne).sum + (ws.map WState.finOne).sum := by
  induction ws with
  | nil => simp
  | cons w ws ih => cases w <;> simp [WState.liveOne, WState.finOne] <;> omega

theorem live_le_length {T : Type} (ws : List (WState T)) :
    (ws.map WState.liveOne).sum ≤ ws.length := by
  induction ws with
  | nil => simp
  | cons w ws ih => cases w <;> simp [WState.liveOne] <;> omega

set_option maxHeartbeats 1000000 in
theorem inv_dispatcher {T S : Type} {task : IdTask T S} {n : Int} {sink : S}
    {calls : List (SinkCall T)} (hW : 1 ≤ task.numWorkers) {s s' : Sys T S}
    {de : List T} {ib : List Int} {ob : List T}
    (h : Inv task n sink calls s de ib ob) (hs : stepDispatcher s = some s') :
    (∃ de' ib' ob', Inv task n sink calls s' de' ib' ob') ∨
      (s'.pc = .panicked ∧ 2 ^ 31 ≤ task.numWorkers) := by
  obtain ⟨⟨f, out, W, ic, oc⟩, m, pc, wg, ws, c, sk, cl⟩ := s
  obtain ⟨h1, h2, h3, h4, h5, h6, h7, h8, h9, h10, h11, h12, h13, h14, h15, h16, h17, h18, h19,
    h20, h21, h22⟩ := h
  simp only at h1 h2 h3 h4 h5 h6 h7 h8 h9 h10 h11 h12 h13 h14 h15 h16 h17 h18 h19 h20 h21 h22
  subst h1 h2 h3 h4
  have hW' : ¬ task.numWorkers < 0 := by omega
  cases pc
  case guard =>
    simp [stepDispatcher, DPc.phase] at hs h5 h6
    subst h5 h6
    simp at hs
    subst hs
    simp [DPc.phase] at h7 h8 h9 h10 h12 h13 h14 h15 h16 h17 h18 h19 h20 h21
    refine Or.inl ⟨de, ib, ob, ?_⟩
    constructor
    rotate_right
    · simpa [DPc.pendingIds] using h22
    all_goals first
      | assumption
      | omega
      | (simp [DPc.phase]; done)
      | (simp [DPc.phase]; assumption)
      | (simp [DPc.phase, *]; done)
      | (simp [DPc.phase, *]; omega)
      | (intro j hj; simp at hj; subst hj; simp; omega)
      | (simp_all [DPc.phase]; done)
  case makeIn =>
    by_cases hbig : makeLimit ≤ task.numWorkers
    · simp [stepDispatcher, hbig] at hs
      subst hs
      exact Or.inr ⟨rfl, by unfold makeLimit at hbig; omega⟩
    simp [stepDispatcher, DPc.phase, hW', hbig] at hs h5 h6 h8
    subst hs h8
    simp [DPc.phase] at h7 h9 h10 h12 h13 h14 h15 h16 h17 h18 h19 h20 h21
    refine Or.inl ⟨de, [], ob, ?_⟩
    constructor
    rotate_right
    · simpa [DPc.pendingIds] using h22
    all_goals first
      | assumption
      | omega
      | (simp [DPc.phase]; done)
      | (simp [DPc.phase]; assumption)
      | (simp [DPc.phase, *]; done)
      | (simp [DPc.phase, *]; omega)
      | (intro j hj; simp at hj; subst hj; simp; omega)
      | (simp_all [DPc.phase]; done)
  case makeOut =>
    by_cases hbig : makeLimit ≤ task.numWorkers
    · simp [stepDispatcher, hbig] at hs
      subst hs
      exact Or.inr ⟨rfl, by unfold makeLimit at hbig; omega⟩
    simp [stepDispatcher, DPc.phase, hW', hbig] at hs h5 h6 h9
    subst hs h9
    simp [DPc.phase] at h7 h8 h10 h12 h13 h14 h15 h16 h17 h18 h19 h20 h21
    refine Or.inl ⟨de, ib, [], ?_⟩
    constructor
    rotate_right
    · simpa [DPc.pendingIds] using h22
    all_goals first
      | assumption
      | omega
      | (simp [DPc.phase]; done)
      | (simp [DPc.phase]; assumption)
      | (simp [DPc.phase, *]; done)
      | (simp [DPc.phase, *]; omega)
      | (intro j hj; simp at hj; subst hj; simp; omega)
      | (simp_all [DPc.phase]; done)
  case spawn i =>
    simp [stepDispatcher, DPc.phase] at hs h5 h6
    obtain ⟨hl, hi⟩ := h11 i rfl
    simp [DPc.phase] at h7 h8 h9 h10 h12 h13 h14 h15 h16 h17 h18 h19 h20 h21
    by_cases hlt : i < task.numWorkers
    · by_cases hwg : wg + 1 < waitGroupLimit
      swap
      · simp [hlt, hwg] at hs
        subst hs
        have hle := live_le_length ws
        exact Or.inr ⟨rfl, by unfold waitGroupLimit at hwg; omega⟩
      simp [hlt, hwg] at hs
      subst hs
      refine Or.inl ⟨de, ib, ob, ?_⟩
      constructor
      rotate_right
      · simpa [DPc.pendingIds, WState.held] using h22
      all_goals first
        | assumption
        | omega
        | (simp [DPc.phase, WState.liveOne, WState.finOne]; done)
        | (simp [DPc.phase, WState.liveOne, WState.finOne]; assumption)
        | (simp [DPc.phase, WState.liveOne, WState.finOne, *]; done)
        | (simp [DPc.phase, WState.liveOne, WState.finOne, *]; omega)
        | (intro j hj; simp at hj; subst hj; simp; omega)
        | (simp_all [DPc.phase, WState.liveOne, WState.finOne]; done)
    · simp [hlt] at hs
      subst hs
      refine Or.inl ⟨de, ib, ob, ?_⟩
      constructor
      rotate_right
      · simpa [DPc.pendingIds] using h22
      all_goals first
        | assumption
        | omega
        | (simp [DPc.phase]; done)
        | (simp [DPc.phase]; assumption)
        | (simp [DPc.phase, *]; done)
        | (simp [DPc.phase, *]; omega)
        | (intro j hj; simp at hj; subst hj; simp; omega)
        | (simp_all [DPc.phase]; done)
  case spawnOut =>
    simp [stepDispatcher, DPc.phase] at hs h5 h6
    subst hs
    simp [DPc.phase] at h7 h8 h9 h10 h12 h13 h14 h15 h16 h17 h18 h19 h20 h21
    have hc : c = none := by
      rcases c with _ | c
      · rfl
      · cases c <;> simp [CState.stage] at h16
    subst hc
    simp at h19
    subst h19
    refine Or.inl ⟨[], ib, ob, ?_⟩
    constructor
    rotate_right
    · simpa [DPc.pendingIds, CState.pending] using h22
    all_goals first
      | assumption
      | omega
      | (simp [DPc.phase, CState.stage, sinkLog]; done)
      | (simp [DPc.phase, CState.stage, sinkLog]; assumption)
      | (simp [DPc.phase, CState.stage, sinkLog, *]; done)
      | (simp [DPc.phase, CState.stage, sinkLog, *]; omega)
      | (intro j hj; simp at hj; subst hj; simp; omega)
      | (simp_all [DPc.phase, CState.stage, sinkLog]; done)
  case feed i =>
    simp [stepDispatcher, DPc.phase] at hs h5 h6
    simp [DPc.phase] at h7 h8 h9 h10 h12 h13 h14 h15 h16 h17 h18 h19 h20 h21
    by_cases hlt : i < m
    · by_cases hfull : ib.length < task.numWorkers.toNat
      · simp [hlt, h5, hfull] at hs
        subst hs
        refine Or.inl ⟨de, ib ++ [i], ob, ?_⟩
        constructor
        rotate_right
        · simp only [DPc.pendingIds] at h22 ⊢
          rw [ids_of_lt hlt] at h22
          rw [← h22]
          simp only [List.map_append, List.map_cons, List.map_nil, ← Multiset.coe_add,
            ← Multiset.cons_coe, ← Multiset.singleton_add]
          abel
        all_goals first
          | assumption
          | omega
          | (simp [DPc.phase]; done)
          | (simp [DPc.phase]; assumption)
          | (simp [DPc.phase, *]; done)
          | (simp [DPc.phase, *]; omega)
          | (intro j hj; simp at hj; subst hj; simp; omega)
          | (simp_all [DPc.phase]; done)
      · simp [hlt, h5, hfull] at hs
    · simp [hlt] at hs
      subst hs
      refine Or.inl ⟨de, ib, ob, ?_⟩
      constructor
      rotate_right
      · simpa [DPc.pendingIds, ids_of_not_lt hlt] using h22
      all_goals first
        | assumption
        | omega
        | (simp [DPc.phase]; done)
        | (simp [DPc.phase]; assumption)
        | (simp [DPc.phase, *]; done)
        | (simp [DPc.phase, *]; omega)
        | (intro j hj; simp at hj; subst hj; simp; omega)
        | (simp_all [DPc.phase]; done)
  case closeIn =>
    simp [stepDispatcher, DPc.phase] at hs h5 h6
    simp [h5] at hs
    subst hs
    simp [DPc.phase] at h7 h8 h9 h10 h12 h13 h14 h15 h16 h17 h18 h19 h20 h21
    refine Or.inl ⟨de, ib, ob, ?_⟩
    constructor
    rotate_right
    · simpa [DPc.pendingIds] using h22
    all_goals first
      | assumption
      | omega
      | (simp [DPc.phase]; done)
      | (simp [DPc.phase]; assumption)
      | (simp [DPc.phase, *]; done)
      | (simp [DPc.phase, *]; omega)
      | (intro j hj; simp at hj; subst hj; simp; omega)
      | (simp_all [DPc.phase]; done)
  case waitWorkers =>
    simp [stepDispatcher, DPc.phase] at hs h5 h6
    obtain ⟨hwg, hs⟩ := hs
    subst hs
    simp [DPc.phase] at h7 h8 h9 h10 h12 h13 h14 h15 h16 h17 h18 h19 h20 h21
    have hlive : (ws.map WState.liveOne).sum = 0 := by omega
    have hfin : (ws.map WState.finOne).sum ≠ 0 := by
      have := length_le_live_add_fin ws
      omega
    have hib : ib = [] := h14 hfin
    refine Or.inl ⟨de, ib, ob, ?_⟩
    constructor
    rotate_right
    · simpa [DPc.pendingIds] using h22
    all_goals first
      | assumption
      | omega
      | (simp [DPc.phase]; done)
      | (simp [DPc.phase]; assumption)
      | (simp [DPc.phase, *]; done)
      | (simp [DPc.phase, *]; omega)
      | (intro j hj; simp at hj; subst hj; simp; omega)
      | (simp_all [DPc.phase]; done)
  case closeOut =>
    simp [stepDispatcher, DPc.phase] at hs h5 h6
    simp [h6] at hs
    subst hs
    simp [DPc.phase] at h7 h8 h9 h10 h12 h13 h14 h15 h16 h17 h18 h19 h20 h21
    refine Or.inl ⟨de, ib, ob, ?_⟩
    constructor
    rotate_right
    · simpa [DPc.pendingIds] using h22
    all_goals first
      | assumption
      | omega
      | (simp [DPc.phase]; done)
      | (simp [DPc.phase]; assumption)
      | (simp [DPc.phase, *]; done)
      | (simp [DPc.phase, *]; omega)
      | (intro j hj; simp at hj; subst hj; simp; omega)
      | (simp_all [DPc.phase]; done)
  case waitOut =>
    simp [stepDispatcher, DPc.phase] at hs h5 h6
    simp [DPc.phase] at h7 h8 h9 h10 h12 h13 h14 h15 h16 h17 h18 h19 h20 h21
    cases c with
    | none => simp at hs
    | some c =>
      cases c <;> simp at hs
      subst hs
      refine Or.inl ⟨de, ib, ob, ?_⟩
      constructor
      rotate_right
      · simpa [DPc.pendingIds, CState.pending] using h22
      all_goals first
        | assumption
        | omega
        | (simp [DPc.phase, CState.stage, sinkLog]; done)
        | (simp [DPc.phase, CState.stage, sinkLog]; assumption)
        | (simp [DPc.phase, CState.stage, sinkLog, *]; done)
        | (simp [DPc.phase, CState.stage, sinkLog, *]; omega)
        | (intro j hj; simp at hj; subst hj; simp; omega)
        | (simp_all [DPc.phase, CState.stage, sinkLog]; done)
  case clearIn =>
    simp [stepDispatcher, DPc.phase] at hs h5 h6
    subst hs
    simp [DPc.phase] at h7 h8 h9 h10 h12 h13 h14 h15 h16 h17 h18 h19 h20 h21
    refine Or.inl ⟨de, ib, ob, ?_⟩
    constructor
    rotate_right
    · simpa [DPc.pendingIds] using h22
    all_goals first
      | assumption
      | omega
      | (simp [DPc.phase]; done)
      | (simp [DPc.phase]; assumption)
      | (simp [DPc.phase, *]; done)
      | (simp [DPc.phase, *]; omega)
      | (intro j hj; simp at hj; subst hj; simp; omega)
      | (simp_all [DPc.phase]; done)
  case clearOut =>
    simp [stepDispatcher, DPc.phase] at hs h5 h6
    subst hs
    simp [DPc.phase] at h7 h8 h9 h10 h12 h13 h14 h15 h16 h17 h18 h19 h20 h21
    refine Or.inl ⟨de, ib, ob, ?_⟩
    constructor
    rotate_right
    · simpa [DPc.pendingIds] using h22
    all_goals first
      | assumption
      | omega
      | (simp [DPc.phase]; done)
      | (simp [DPc.phase]; assumption)
      | (simp [DPc.phase, *]; done)
      | (simp [DPc.phase, *]; omega)
      | (intro j hj; simp at hj; subst hj; simp; omega)
      | (simp_all [DPc.phase]; done)
  case returned => simp [stepDispatcher] at hs
  case panicked => simp [stepDispatcher] at hs

theorem CState.stage_le {T : Type} (c : Option (CState T)) : CState.stage c ≤ 3 := by
  rcases c with _ | c
  · simp [CState.stage]
  · cases c <;> simp [CState.stage]

theorem inv_worker {T S : Type} {task : IdTask T S} {n : Int} {sink : S}
    {calls : List (SinkCall T)} (hW : 1 ≤ task.numWorkers) {s s' : Sys T S} (i : Nat)
    {de : List T} {ib : List Int} {ob : List T}
    (h : Inv task n sink calls s de ib ob) (hs : stepWorker i s = some s') :
    ∃ de' ib' ob', Inv task n sink calls s' de' ib' ob' := by
  obtain ⟨⟨f, out, W, ic, oc⟩, m, pc, wg, ws, c, sk, cl⟩ := s
  obtain ⟨h1, h2, h3, h4, h5, h6, h7, h8, h9, h10, h11, h12, h13, h14, h15, h16, h17, h18, h19,
    h20, h21, h22⟩ := h
  simp only at h1 h2 h3 h4 h5 h6 h7 h8 h9 h10 h11 h12 h13 h14 h15 h16 h17 h18 h19 h20 h21 h22
  subst h1 h2 h3 h4
  have hst := CState.stage_le c
  unfold stepWorker at hs
  simp only at hs
  cases hget : ws.get? i with
  | none => rw [hget] at hs; simp at hs
  | some w =>
    obtain ⟨l1, l2, rfl, hset⟩ := get?_split ws i w hget
    rw [hget] at hs
    simp only [hset] at hs
    simp only [List.map_append, List.map_cons, List.sum_append, List.sum_cons, List.length_append,
      List.length_cons] at h11 h12 h13 h14 h15 h22
    cases w
    case recv =>
      by_cases hph : 2 ≤ pc.phase ∧ pc.phase ≤ 10
      · simp only [hph, and_self, if_true] at h5
        rw [h5] at hs
        simp only at hs
        cases ib with
        | nil =>
          by_cases hcl : 7 ≤ pc.phase
          · simp [hcl] at hs
            subst hs
            refine ⟨de, [], ob, ?_⟩
            constructor
            rotate_right
            · simpa [WState.held] using h22
            all_goals first
              | assumption
              | omega
              | (simp [WState.liveOne, WState.finOne]; done)
              | (simp [WState.liveOne, WState.finOne]; assumption)
              | (simp [WState.liveOne, WState.finOne, *]; done)
              | (simp [WState.liveOne, WState.finOne, *]; omega)
              | (simp_all [WState.liveOne, WState.finOne]; done)
          · simp [hcl] at hs
        | cons id rest =>
          simp at hs
          subst hs
          refine ⟨de, rest, ob, ?_⟩
          constructor
          rotate_right
          · rw [← h22]
            simp only [List.map_append, List.map_cons, List.map_nil, List.sum_append, List.sum_cons,
              WState.held, ← Multiset.coe_add, ← Multiset.cons_coe, ← Multiset.singleton_add,
                Multiset.coe_nil, add_zero, zero_add]
            try abel
          all_goals first
            | assumption
            | omega
            | (simp [WState.liveOne, WState.finOne]; done)
            | (simp [WState.liveOne, WState.finOne]; assumption)
            | (simp [WState.liveOne, WState.finOne, *]; done)
            | (simp [WState.liveOne, WState.finOne, *]; omega)
            | (simp_all [WState.liveOne, WState.finOne]; done)
      · simp [hph] at h5
        rw [h5] at hs
        simp at hs
    case call id =>
      simp at hs
      subst hs
      refine ⟨de, ib, ob, ?_⟩
      constructor
      rotate_right
      · rw [← h22]
        simp only [List.map_append, List.map_cons, List.map_nil, List.sum_append, List.sum_cons,
          WState.held, ← Multiset.coe_add, ← Multiset.cons_coe, ← Multiset.singleton_add,
                Multiset.coe_nil, add_zero, zero_add]
        try abel
      all_goals first
        | assumption
        | omega
        | (simp [WState.liveOne, WState.finOne]; done)
        | (simp [WState.liveOne, WState.finOne]; assumption)
        | (simp [WState.liveOne, WState.finOne, *]; done)
        | (simp [WState.liveOne, WState.finOne, *]; omega)
        | (simp_all [WState.liveOne, WState.finOne]; done)
    case send v =>
      by_cases hph : 3 ≤ pc.phase ∧ pc.phase ≤ 11
      · simp only [hph, and_self, if_true] at h6
        rw [h6] at hs
        simp only at hs
        have hopen : ¬ 9 ≤ pc.phase := by
          intro h9'
          have := h15 (by omega)
          simp [WState.liveOne] at this
        by_cases hfull : ob.length < task.numWorkers.toNat
        · simp [hopen, hfull] at hs
          subst hs
          refine ⟨de, ib, ob ++ [v], ?_⟩
          constructor
          rotate_right
          · rw [← h22]
            simp only [List.map_append, List.map_cons, List.map_nil, List.sum_append, List.sum_cons,
              WState.held, ← Multiset.coe_add, ← Multiset.cons_coe, ← Multiset.singleton_add,
                Multiset.coe_nil, add_zero, zero_add]
            try abel
          all_goals first
            | assumption
            | omega
            | (simp [WState.liveOne, WState.finOne]; done)
            | (simp [WState.liveOne, WState.finOne]; assumption)
            | (simp [WState.liveOne, WState.finOne, *]; done)
            | (simp [WState.liveOne, WState.finOne, *]; omega)
            | (simp_all [WState.liveOne, WState.finOne]; done)
        · simp [hopen, hfull] at hs
      · simp [hph] at h6
        rw [h6] at hs
        simp at hs
    case done =>
      have hwg : wg ≠ 0 := by
        rw [h13]; simp [WState.liveOne]
      simp [hwg] at hs
      subst hs
      refine ⟨de, ib, ob, ?_⟩
      constructor
      rotate_right
      · simpa [WState.held] using h22
      all_goals first
        | assumption
        | omega
        | (simp [WState.liveOne, WState.finOne]; done)
        | (simp [WState.liveOne, WState.finOne]; assumption)
        | (simp [WState.liveOne, WState.finOne, *]; done)
        | (simp [WState.liveOne, WState.finOne, *]; omega)
        | (simp_all [WState.liveOne, WState.finOne]; done)
    case exited => simp at hs

theorem inv_collector {T S : Type} {task : IdTask T S} {n : Int} {sink : S}
    {calls : List (SinkCall T)} {s s' : Sys T S}
    {de : List T} {ib : List Int} {ob : List T}
    (h : Inv task n sink calls s de ib ob) (hs : stepCollector s = some s') :
    ∃ de' ib' ob', Inv task n sink calls s' de' ib' ob' := by
  obtain ⟨⟨f, out, W, ic, oc⟩, m, pc, wg, ws, c, sk, cl⟩ := s
  obtain ⟨h1, h2, h3, h4, h5, h6, h7, h8, h9, h10, h11, h12, h13, h14, h15, h16, h17, h18, h19,
    h20, h21, h22⟩ := h
  simp only at h1 h2 h3 h4 h5 h6 h7 h8 h9 h10 h11 h12 h13 h14 h15 h16 h17 h18 h19 h20 h21 h22
  subst h1 h2 h3 h4
  rcases c with _ | c
  · simp [stepCollector] at hs
  cases c
  case begin =>
    simp [stepCollector, ExecuteOutput.step] at hs
    subst hs
    simp at h19
    subst h19
    simp only [CState.stage, sinkLog, CState.pending] at h9 h16 h17 h18 h20 h21 h22
    refine ⟨[], ib, ob, ?_⟩
    constructor
    rotate_right
    · simpa [CState.pending] using h22
    all_goals first
      | assumption
      | omega
      | (simp [CState.stage, sinkLog, replay, SinkCall.apply]; done)
      | (simp [CState.stage, sinkLog, replay, SinkCall.apply]; assumption)
      | (simp [CState.stage, sinkLog, replay, SinkCall.apply, *]; done)
      | (simp [CState.stage, sinkLog, replay, SinkCall.apply, *]; omega)
      | (simp_all [CState.stage, sinkLog, replay, SinkCall.apply]; done)
  case recv =>
    simp only [CState.stage, sinkLog, CState.pending] at h9 h16 h17 h18 h20 h21 h22
    by_cases hph : 3 ≤ pc.phase ∧ pc.phase ≤ 11
    · simp only [hph, and_self, if_true] at h6
      simp only [stepCollector, ExecuteOutput.step, h6] at hs
      cases ob with
      | nil =>
        by_cases hcl : 9 ≤ pc.phase
        · simp [hcl] at hs
          subst hs
          refine ⟨de, ib, [], ?_⟩
          constructor
          rotate_right
          · simpa [CState.pending] using h22
          all_goals first
            | assumption
            | omega
            | (simp [CState.stage, sinkLog, replay, SinkCall.apply]; done)
            | (simp [CState.stage, sinkLog, replay, SinkCall.apply]; assumption)
            | (simp [CState.stage, sinkLog, replay, SinkCall.apply, *]; done)
            | (simp [CState.stage, sinkLog, replay, SinkCall.apply, *]; omega)
            | (simp_all [CState.stage, sinkLog, replay, SinkCall.apply]; done)
        · simp [hcl] at hs
      | cons v rest =>
        simp at hs
        subst hs
        refine ⟨de, ib, rest, ?_⟩
        constructor
        rotate_right
        · rw [← h22]
          simp only [List.map_append, List.map_cons, List.map_nil, CState.pending,
            ← Multiset.coe_add, ← Multiset.cons_coe, ← Multiset.singleton_add,
            Multiset.coe_nil, add_zero, zero_add]
          try abel
        all_goals first
          | assumption
          | omega
          | (simp [CState.stage, sinkLog, replay, SinkCall.apply]; done)
          | (simp [CState.stage, sinkLog, replay, SinkCall.apply]; assumption)
          | (simp [CState.stage, sinkLog, replay, SinkCall.apply, *]; done)
          | (simp [CState.stage, sinkLog, replay, SinkCall.apply, *]; omega)
          | (simp_all [CState.stage, sinkLog, replay, SinkCall.apply]; done)
    · simp [hph] at h6
      simp [stepCollector, ExecuteOutput.step, h6] at hs
  case update v =>
    simp [stepCollector, ExecuteOutput.step] at hs
    subst hs
    simp only [CState.stage, sinkLog, CState.pending] at h9 h16 h17 h18 h20 h21 h22
    refine ⟨de ++ [v], ib, ob, ?_⟩
    constructor
    rotate_right
    · rw [← h22]
      simp only [List.map_append, List.map_cons, List.map_nil, CState.pending,
        ← Multiset.coe_add, ← Multiset.cons_coe, ← Multiset.singleton_add,
        Multiset.coe_nil, add_zero, zero_add]
      try abel
    all_goals first
      | assumption
      | omega
      | (simp [CState.stage, sinkLog, replay, SinkCall.apply]; done)
      | (simp [CState.stage, sinkLog, replay, SinkCall.apply]; assumption)
      | (simp [CState.stage, sinkLog, replay, SinkCall.apply, *]; done)
      | (simp [CState.stage, sinkLog, replay, SinkCall.apply, *]; omega)
      | (simp_all [CState.stage, sinkLog, replay, SinkCall.apply]; done)
  case finish =>
    simp [stepCollector, ExecuteOutput.step] at hs
    subst hs
    simp only [CState.stage, sinkLog, CState.pending] at h9 h16 h17 h18 h20 h21 h22
    refine ⟨de, ib, ob, ?_⟩
    constructor
    rotate_right
    · simpa [CState.pending] using h22
    all_goals first
      | assumption
      | omega
      | (simp [CState.stage, sinkLog, replay, SinkCall.apply]; done)
      | (simp [CState.stage, sinkLog, replay, SinkCall.apply]; assumption)
      | (simp [CState.stage, sinkLog, replay, SinkCall.apply, *]; done)
      | (simp [CState.stage, sinkLog, replay, SinkCall.apply, *]; omega)
      | (simp_all [CState.stage, sinkLog, replay, SinkCall.apply]; done)
  case signal =>
    simp only [CState.stage, sinkLog, CState.pending] at h9 h16 h17 h18 h20 h21 h22
    have hpc : pc.phase = 9 := h17 trivial
    cases pc <;> simp [DPc.phase] at hpc
    simp [stepCollector] at hs
    subst hs
    refine ⟨de, ib, ob, ?_⟩
    constructor
    rotate_right
    · simpa [CState.pending, DPc.pendingIds] using h22
    all_goals first
      | assumption
      | omega
      | (simp [CState.stage, sinkLog, DPc.phase]; done)
      | (simp [CState.stage, sinkLog, DPc.phase]; assumption)
      | (simp [CState.stage, sinkLog, DPc.phase, *]; done)
      | (simp [CState.stage, sinkLog, DPc.phase, *]; omega)
      | (simp_all [CState.stage, sinkLog, DPc.phase]; done)
  case exited =>
    simp [stepCollector, ExecuteOutput.step] at hs

/-! ## Every step decreases the measure -/
theorem DPc.rank_pos (w n : Int) (pc : DPc) (h : pc ≠ .panicked) : 1 ≤ pc.rank w n := by
  cases pc <;> simp [DPc.rank] at h ⊢ <;> omega

theorem measure_dispatcher {T S : Type} {s s' : Sys T S} (hs : stepDispatcher s = some s') :
    s'.measure < s.measure := by
  obtain ⟨⟨f, out, W, ic, oc⟩, m, pc, wg, ws, c, sk, cl⟩ := s
  cases pc <;> simp only [stepDispatcher] at hs
  case guard => split at hs <;> (simp at hs; subst hs; simp [Sys.measure, DPc.rank] <;> omega)
  case makeIn =>
    split at hs <;> (simp at hs; subst hs; simp [Sys.measure, DPc.rank, queued] <;> omega)
  case makeOut =>
    split at hs <;> (simp at hs; subst hs; simp [Sys.measure, DPc.rank, queued] <;> omega)
  case spawn i =>
    split at hs
    · split at hs <;>
        (simp at hs; subst hs; simp [Sys.measure, DPc.rank, WState.rank] <;> omega)
    · simp at hs; subst hs; simp [Sys.measure, DPc.rank, WState.rank] <;> omega
  case spawnOut =>
    simp at hs; subst hs; simp [Sys.measure, DPc.rank, CState.rank] <;> omega
  case feed i =>
    split at hs
    · rcases ic with _ | q
      · simp at hs
      · simp only at hs
        split at hs
        · simp at hs; subst hs; simp [Sys.measure, DPc.rank, queued] <;> omega
        · split at hs
          · simp at hs; subst hs; simp [Sys.measure, DPc.rank, queued] <;> omega
          · simp at hs
    · simp at hs; subst hs; simp [Sys.measure, DPc.rank] <;> omega
  case closeIn =>
    rcases ic with _ | q
    · simp at hs; subst hs; simp [Sys.measure, DPc.rank] <;> omega
    · simp only at hs
      split at hs <;> (simp at hs; subst hs; simp [Sys.measure, DPc.rank, queued] <;> omega)
  case waitWorkers =>
    split at hs
    · simp at hs; subst hs; simp [Sys.measure, DPc.rank] <;> omega
    · simp at hs
  case closeOut =>
    rcases oc with _ | q
    · simp at hs; subst hs; simp [Sys.measure, DPc.rank] <;> omega
    · simp only at hs
      split at hs <;> (simp at hs; subst hs; simp [Sys.measure, DPc.rank, queued] <;> omega)
  case waitOut =>
    rcases c with _ | c
    · simp at hs
    · cases c <;> simp at hs
      subst hs; simp [Sys.measure, DPc.rank, CState.rank] <;> omega
  case clearIn => simp at hs; subst hs; simp [Sys.measure, DPc.rank, queued] <;> omega
  case clearOut => simp at hs; subst hs; simp [Sys.measure, DPc.rank, queued] <;> omega
  case returned => simp at hs
  case panicked => simp at hs

theorem measure_worker {T S : Type} {s s' : Sys T S} (i : Nat) (hp : s.pc ≠ .panicked)
    (hs : stepWorker i s = some s') : s'.measure < s.measure := by
  obtain ⟨⟨f, out, W, ic, oc⟩, m, pc, wg, ws, c, sk, cl⟩ := s
  have hr := DPc.rank_pos W m pc hp
  have h0 : DPc.rank W m .panicked = 0 := rfl
  unfold stepWorker at hs
  simp only at hs
  cases hget : ws.get? i with
  | none => rw [hget] at hs; simp at hs
  | some w =>
    obtain ⟨l1, l2, rfl, hset⟩ := get?_split ws i w hget
    rw [hget] at hs
    simp only [hset] at hs
    cases w
    case recv =>
      rcases ic with _ | q
      · simp at hs
      · obtain ⟨buf, cap, closed⟩ := q
        cases buf with
        | nil =>
          simp only at hs
          split at hs
          · simp at hs; subst hs; simp [Sys.measure, WState.rank]
          · simp at hs
        | cons id rest =>
          simp at hs; subst hs; simp [Sys.measure, WState.rank, queued] <;> omega
    case call id =>
      simp at hs; subst hs; simp [Sys.measure, WState.rank]
    case send v =>
      rcases oc with _ | q
      · simp at hs
      · simp only at hs
        split at hs
        · simp at hs; subst hs; simp [Sys.measure, h0] <;> omega
        · split at hs
          · simp at hs; subst hs; simp [Sys.measure, WState.rank, queued] <;> omega
          · simp at hs
    case done =>
      simp only at hs
      split at hs
      · simp at hs; subst hs; simp [Sys.measure, h0] <;> omega
      · simp at hs; subst hs; simp [Sys.measure, WState.rank]
    case exited => simp at hs

theorem measure_collector {T S : Type} {s s' : Sys T S}
    (hs : stepCollector s = some s') : s'.measure < s.measure := by
  obtain ⟨⟨f, out, W, ic, oc⟩, m, pc, wg, ws, c, sk, cl⟩ := s
  rcases c with _ | c
  · simp [stepCollector] at hs
  cases c
  case begin =>
    simp [stepCollector, ExecuteOutput.step] at hs
    subst hs; simp [Sys.measure, CState.rank]
  case recv =>
    rcases oc with _ | q
    · simp [stepCollector, ExecuteOutput.step] at hs
    · obtain ⟨buf, cap, closed⟩ := q
      cases buf with
      | nil =>
        simp only [stepCollector, ExecuteOutput.step] at hs
        split at hs
        · simp at hs
        · rename_i heq
          split at heq
          · simp at heq
            obtain ⟨rfl, rfl, rfl, rfl⟩ := heq
            simp at hs; subst hs; simp [Sys.measure, CState.rank]
          · simp at heq
      | cons v rest =>
        simp [stepCollector, ExecuteOutput.step] at hs
        subst hs; simp [Sys.measure, CState.rank, queued]; omega
  case update v =>
    simp [stepCollector, ExecuteOutput.step] at hs
    subst hs; simp [Sys.measure, CState.rank]
  case finish =>
    simp [stepCollector, ExecuteOutput.step] at hs
    subst hs; simp [Sys.measure, CState.rank]
  case signal =>
    cases pc <;> simp [stepCollector] at hs
    subst hs; simp [Sys.measure, CState.rank, DPc.rank]; omega
  case exited => simp [stepCollector, ExecuteOutput.step] at hs

theorem measure_step {T S : Type} {s s' : Sys T S} (a : Action) (hs : step a s = some s') :
    s'.measure < s.measure := by
  unfold step at hs
  split at hs
  · simp at hs
  · rename_i hp
    cases a
    · exact measure_dispatcher hs
    · exact measure_worker _ hp hs
    · exact measure_collector hs

theorem measure_run {T S : Type} (sched : List Action) :
    ∀ {s s' : Sys T S}, run sched s = some s' → s'.measure + sched.length ≤ s.measure := by
  induction sched with
  | nil => intro s s' h; simp [run] at h; subst h; simp
  | cons a rest ih =>
    intro s s' h
    simp only [run] at h
    cases hstep : step a s with
    | none => rw [hstep] at h; simp at h
    | some s1 =>
      rw [hstep] at h
      have h1 := measure_step a hstep
      have h2 := ih (by simpa using h)
      simp only [List.length_cons]
      omega

/-! ## No reachable configuration is stuck -/
theorem DPc.ne_panicked_of_phase {pc : DPc} (h : pc.phase ≤ 12) : pc ≠ .panicked := by
  cases pc <;> simp [DPc.phase] at h ⊢

theorem exists_live {T : Type} : ∀ (ws : List (WState T)), (ws.map WState.liveOne).sum ≠ 0 →
    ∃ i w, ws.get? i = some w ∧ w ≠ .exited := by
  intro ws
  induction ws with
  | nil => intro h; simp at h
  | cons a ws ih =>
    intro h
    by_cases ha : a = .exited
    · subst ha
      simp [WState.liveOne] at h
      obtain ⟨i, w, hi, hw⟩ := ih h
      exact ⟨i + 1, w, by simpa using hi, hw⟩
    · exact ⟨0, a, by simp, ha⟩

theorem worker_enabled {T S : Type} {task : IdTask T S} {n : Int} {sink : S}
    {calls : List (SinkCall T)} (hW : 1 ≤ task.numWorkers) {s : Sys T S}
    {de : List T} {ib : List Int} {ob : List T}
    (h : Inv task n sink calls s de ib ob) (hph : 5 ≤ s.pc.phase ∧ s.pc.phase ≤ 7)
    {i : Nat} {w : WState T} (hget : s.workers.get? i = some w) (hw : w ≠ .exited)
    (hrecv : w = .recv → ib ≠ [] ∨ 7 ≤ s.pc.phase) :
    ∃ a, (step a s).isSome = true := by
  obtain ⟨⟨f, out, W, ic, oc⟩, m, pc, wg, ws, c, sk, cl⟩ := s
  obtain ⟨h1, h2, h3, h4, h5, h6, h7, h8, h9, h10, h11, h12, h13, h14, h15, h16, h17, h18, h19,
    h20, h21, h22⟩ := h
  simp only at h1 h2 h3 h4 h5 h6 h7 h8 h9 h10 h11 h12 h13 h14 h15 h16 h17 h18 h19 h20 h21 h22
  simp only at hph hget hrecv
  subst h1 h2 h3 h4
  have hp : pc ≠ .panicked := DPc.ne_panicked_of_phase h7
  have hin : (2 ≤ pc.phase ∧ pc.phase ≤ 10) := by omega
  have hout : (3 ≤ pc.phase ∧ pc.phase ≤ 11) := by omega
  have hopen : ¬ 9 ≤ pc.phase := by omega
  simp only [hin, hout, and_self, if_true] at h5 h6
  have hst := CState.stage_le c
  have hget' : ws[i]? = some w := by simpa using hget
  cases w
  case recv =>
    refine ⟨.worker i, ?_⟩
    cases ib with
    | nil =>
      have : 7 ≤ pc.phase := by simpa using hrecv
      simp [step, hp, stepWorker, hget', h5, this]
    | cons id rest =>
      simp [step, hp, stepWorker, hget', h5]
  case call id =>
    refine ⟨.worker i, ?_⟩
    simp [step, hp, stepWorker, hget']
  case send v =>
    by_cases hfull : ob.length < task.numWorkers.toNat
    · refine ⟨.worker i, ?_⟩
      simp [step, hp, stepWorker, hget', h6, hopen, hfull]
    · refine ⟨.collector, ?_⟩
      rcases c with _ | c
      · simp [CState.stage] at h16; omega
      · cases c with
        | begin => simp [step, hp, stepCollector, ExecuteOutput.step]
        | recv =>
          cases ob with
          | nil => simp at hfull; omega
          | cons x rest => simp [step, hp, stepCollector, ExecuteOutput.step, h6]
        | update x => simp [step, hp, stepCollector, ExecuteOutput.step]
        | finish => simp [CState.stage] at h17; omega
        | signal => simp [CState.stage] at h17; omega
        | exited => simp [CState.stage] at h18; omega
  case done =>
    obtain ⟨l1, l2, rfl, hset⟩ := get?_split ws i _ hget
    have hwg : wg ≠ 0 := by rw [h13]; simp [WState.liveOne]
    refine ⟨.worker i, ?_⟩
    simp [step, hp, stepWorker, hget', hwg]
  case exited => exact absurd rfl hw

theorem progress {T S : Type} {task : IdTask T S} {n : Int} {sink : S}
    {calls : List (SinkCall T)} (hW : 1 ≤ task.numWorkers) {s : Sys T S}
    {de : List T} {ib : List Int} {ob : List T}
    (h : Inv task n sink calls s de ib ob) (hret : s.pc ≠ .returned) :
    ∃ a, (step a s).isSome = true := by
  have h' := h
  obtain ⟨⟨f, out, W, ic, oc⟩, m, pc, wg, ws, c, sk, cl⟩ := s
  obtain ⟨h1, h2, h3, h4, h5, h6, h7, h8, h9, h10, h11, h12, h13, h14, h15, h16, h17, h18, h19,
    h20, h21, h22⟩ := h
  simp only at h1 h2 h3 h4 h5 h6 h7 h8 h9 h10 h11 h12 h13 h14 h15 h16 h17 h18 h19 h20 h21 h22
  simp only at hret
  subst h1 h2 h3 h4
  have hW' : ¬ task.numWorkers < 0 := by omega
  have hst := CState.stage_le c
  cases pc
  case guard =>
    simp [DPc.phase] at h5 h6
    exact ⟨.dispatcher, by simp [step, stepDispatcher, h5, h6]⟩
  case makeIn =>
    refine ⟨.dispatcher, ?_⟩
    simp only [step, stepDispatcher]
    split
    · simp_all
    · split <;> simp
  case makeOut =>
    refine ⟨.dispatcher, ?_⟩
    simp only [step, stepDispatcher]
    split
    · simp_all
    · split <;> simp
  case spawn i =>
    refine ⟨.dispatcher, ?_⟩
    simp only [step, stepDispatcher]
    split
    · simp_all
    · split
      · split <;> simp
      · simp
  case spawnOut => exact ⟨.dispatcher, by simp [step, stepDispatcher]⟩
  case feed i =>
    simp [DPc.phase] at h5 h6 h12 h14
    by_cases hlt : i < m
    · by_cases hfull : ib.length < task.numWorkers.toNat
      · exact ⟨.dispatcher, by simp [step, stepDispatcher, hlt, h5, hfull]⟩
      · have hlen : 0 < ws.length := by omega
        cases ws with
        | nil => simp at hlen
        | cons w rest =>
          have hw : w ≠ .exited := by
            intro hw; subst hw; simp [WState.finOne] at h14
          refine worker_enabled hW h' (by simp [DPc.phase]) (i := 0) (w := w) (by simp) hw ?_
          intro _
          left
          intro hib
          subst hib
          simp at hfull
          omega
    · exact ⟨.dispatcher, by simp [step, stepDispatcher, hlt]⟩
  case closeIn =>
    simp [DPc.phase] at h5
    exact ⟨.dispatcher, by simp [step, stepDispatcher, h5]⟩
  case waitWorkers =>
    by_cases hwg : wg = 0
    · exact ⟨.dispatcher, by simp [step, stepDispatcher, hwg]⟩
    · obtain ⟨i, w, hget, hw⟩ := exists_live ws (by omega)
      exact worker_enabled hW h' (by simp [DPc.phase]) hget hw (fun _ => Or.inr (by simp [DPc.phase]))
  case closeOut =>
    simp [DPc.phase] at h6
    exact ⟨.dispatcher, by simp [step, stepDispatcher, h6]⟩
  case waitOut =>
    simp [DPc.phase] at h6 h16 h18
    rcases c with _ | c
    · simp [CState.stage] at h16
    · cases c
      case begin => exact ⟨.collector, by simp [step, stepCollector, ExecuteOutput.step]⟩
      case recv =>
        refine ⟨.collector, ?_⟩
        cases ob <;> simp [step, stepCollector, ExecuteOutput.step, h6]
      case update x => exact ⟨.collector, by simp [step, stepCollector, ExecuteOutput.step]⟩
      case finish => exact ⟨.collector, by simp [step, stepCollector, ExecuteOutput.step]⟩
      case signal => exact ⟨.dispatcher, by simp [step, stepDispatcher]⟩
      case exited => simp [CState.stage] at h18
  case clearIn => exact ⟨.dispatcher, by simp [step, stepDispatcher]⟩
  case clearOut => exact ⟨.dispatcher, by simp [step, stepDispatcher]⟩
  case returned => exact absurd rfl hret
  case panicked => simp [DPc.phase] at h7

/-! ## Reachable configurations and the configuration at return -/
theorem step_panicked {T S : Type} (a : Action) (s : Sys T S) (h : s.pc = .panicked) :
    step a s = none := by
  simp [step, h]

theorem run_panicked {T S : Type} (sched : List Action) (s s' : Sys T S) (h : s.pc = .panicked)
    (hr : run sched s = some s') : s' = s := by
  cases sched with
  | nil => simp [run] at hr; exact hr.symm
  | cons a rest => simp [run, step_panicked a s h] at hr

theorem inv_step {T S : Type} {task : IdTask T S} {n : Int} {sink : S}
    {calls : List (SinkCall T)} (hW : 1 ≤ task.numWorkers) {s s' : Sys T S} (a : Action)
    (h : ∃ de ib ob, Inv task n sink calls s de ib ob) (hs : step a s = some s') :
    (∃ de ib ob, Inv task n sink calls s' de ib ob) ∨
      (s'.pc = .panicked ∧ 2 ^ 31 ≤ task.numWorkers) := by
  obtain ⟨de, ib, ob, h⟩ := h
  unfold step at hs
  split at hs
  · simp at hs
  · cases a
    · exact inv_dispatcher hW h hs
    · exact Or.inl (inv_worker hW _ h hs)
    · exact Or.inl (inv_collector h hs)

theorem inv_run {T S : Type} {task : IdTask T S} {n : Int} {sink : S}
    {calls : List (SinkCall T)} (hW : 1 ≤ task.numWorkers) (sched : List Action) :
    ∀ {s s' : Sys T S}, (∃ de ib ob, Inv task n sink calls s de ib ob) → run sched s = some s' →
      (∃ de ib ob, Inv task n sink calls s' de ib ob) ∨
        (s'.pc = .panicked ∧ 2 ^ 31 ≤ task.numWorkers) := by
  induction sched with
  | nil => intro s s' h hr; simp [run] at hr; subst hr; exact Or.inl h
  | cons a rest ih =>
    intro s s' h hr
    simp only [run] at hr
    cases hstep : step a s with
    | none => rw [hstep] at hr; simp at hr
    | some s1 =>
      rw [hstep] at hr
      have hr' : run rest s1 = some s' := by simpa using hr
      rcases inv_step hW a h hstep with h1 | ⟨hp, hbig⟩
      · exact ih h1 hr'
      · have := run_panicked rest s1 s' hp hr'
        subst this
        exact Or.inr ⟨hp, hbig⟩

theorem inv_reachable {T S : Type} {task : IdTask T S} {n : Int} {sink : S}
    {calls : List (SinkCall T)} (hin : task.inputChan = none) (hout : task.outputChan = none)
    (hW : 1 ≤ task.numWorkers) {sched : List Action} {s : Sys T S}
    (hr : run sched (ExecuteMT task n sink calls) = some s) :
    (∃ de ib ob, Inv task n sink calls s de ib ob) ∨
      (s.pc = .panicked ∧ 2 ^ 31 ≤ task.numWorkers) :=
  inv_run hW sched ⟨[], [], [], inv_init task n sink calls hin hout⟩ hr

theorem inv_of_not_panicked {T S : Type} {task : IdTask T S} {n : Int} {sink : S}
    {calls : List (SinkCall T)} (hin : task.inputChan = none) (hout : task.outputChan = none)
    (hW : 1 ≤ task.numWorkers) {sched : List Action} {s : Sys T S}
    (hr : run sched (ExecuteMT task n sink calls) = some s) (hp : s.pc ≠ .panicked) :
    ∃ de ib ob, Inv task n sink calls s de ib ob := by
  rcases inv_reachable hin hout hW hr with h | ⟨h, -⟩
  · exact h
  · exact absurd h hp

theorem inv_of_bounded {T S : Type} {task : IdTask T S} {n : Int} {sink : S}
    {calls : List (SinkCall T)} (hin : task.inputChan = none) (hout : task.outputChan = none)
    (hW : 1 ≤ task.numWorkers) (hB : task.numWorkers < 2 ^ 31) {sched : List Action}
    {s : Sys T S} (hr : run sched (ExecuteMT task n sink calls) = some s) :
    ∃ de ib ob, Inv task n sink calls s de ib ob := by
  rcases inv_reachable hin hout hW hr with h | ⟨-, h⟩
  · exact h
  · omega

theorem run_append {T S : Type} (l1 l2 : List Action) (s : Sys T S) :
    run (l1 ++ l2) s = (run l1 s).bind (run l2) := by
  induction l1 generalizing s with
  | nil => simp [run]
  | cons a l1 ih =>
    simp only [List.cons_append, run]
    cases step a s with
    | none => simp
    | some s1 => simp [ih]

theorem completes {T S : Type} {task : IdTask T S} {n : Int} {sink : S}
    {calls : List (SinkCall T)} (hW : 1 ≤ task.numWorkers) (hB : task.numWorkers < 2 ^ 31)
    (k : Nat) :
    ∀ (s : Sys T S), s.measure ≤ k → (∃ de ib ob, Inv task n sink calls s de ib ob) →
      ∃ sched s', run sched s = some s' ∧ s'.pc = .returned := by
  induction k with
  | zero =>
    intro s hk h
    by_cases hret : s.pc = .returned
    · exact ⟨[], s, rfl, hret⟩
    · obtain ⟨de, ib, ob, hinv⟩ := h
      obtain ⟨a, ha⟩ := progress hW hinv hret
      obtain ⟨s1, hs1⟩ := Option.isSome_iff_exists.mp ha
      have := measure_step a hs1
      omega
  | succ k ih =>
    intro s hk h
    by_cases hret : s.pc = .returned
    · exact ⟨[], s, rfl, hret⟩
    · obtain ⟨de, ib, ob, hinv⟩ := h
      obtain ⟨a, ha⟩ := progress hW hinv hret
      obtain ⟨s1, hs1⟩ := Option.isSome_iff_exists.mp ha
      have hm := measure_step a hs1
      have hinv1 : ∃ de ib ob, Inv task n sink calls s1 de ib ob := by
        rcases inv_step hW a ⟨de, ib, ob, hinv⟩ hs1 with h1 | ⟨-, hbig⟩
        · exact h1
        · omega
      obtain ⟨sched, s', hrun, hpc⟩ := ih s1 (by omega) hinv1
      exact ⟨a :: sched, s', by simp [run, hs1, hrun], hpc⟩

theorem held_of_not_live {T : Type} (f : Int → T) : ∀ (ws : List (WState T)),
    (ws.map WState.liveOne).sum = 0 → (ws.map (WState.held f)).sum = 0 := by
  intro ws
  induction ws with
  | nil => intro _; simp
  | cons w ws ih =>
    intro h
    cases w <;> simp [WState.liveOne] at h
    simp [WState.held, ih h]

theorem returned_spec {T S : Type} {task : IdTask T S} {n : Int} {sink : S}
    {calls : List (SinkCall T)} (hin : task.inputChan = none) (hout : task.outputChan = none)
    {s : Sys T S} {de : List T} {ib : List Int} {ob : List T}
    (h : Inv task n sink calls s de ib ob) (hret : s.pc = .returned) :
    s.task = task ∧
      de.Perm ((List.range n.toNat).map (fun (k : Nat) => task.transform (k : Int))) ∧
      s.calls = calls ++ (SinkCall.OutputBegin ::
        (de.map SinkCall.OutputUpdate ++ [SinkCall.OutputFinish])) ∧
      s.sink = replay task.output (SinkCall.OutputBegin ::
        (de.map SinkCall.OutputUpdate ++ [SinkCall.OutputFinish])) sink := by
  obtain ⟨⟨f, out, W, ic, oc⟩, m, pc, wg, ws, c, sk, cl⟩ := s
  obtain ⟨h1, h2, h3, h4, h5, h6, h7, h8, h9, h10, h11, h12, h13, h14, h15, h16, h17, h18, h19,
    h20, h21, h22⟩ := h
  simp only at h1 h2 h3 h4 h5 h6 h7 h8 h9 h10 h11 h12 h13 h14 h15 h16 h17 h18 h19 h20 h21 h22
  simp only at hret
  subst hret
  simp [DPc.phase] at h5 h6 h8 h15 h18
  have hc : c = some .exited := by
    rcases c with _ | c
    · simp [CState.stage] at h18
    · cases c <;> simp [CState.stage] at h18
      rfl
  subst hc
  simp [CState.stage] at h9
  subst h8 h9
  have hheld := held_of_not_live task.transform ws h15
  simp only [CState.pending, DPc.pendingIds, hheld, List.map_nil, Multiset.coe_nil, add_zero,
    Multiset.coe_eq_coe] at h22
  refine ⟨?_, ?_, ?_, ?_⟩
  · obtain ⟨f0, out0, W0, ic0, oc0⟩ := task
    simp only at h1 h2 h3 hin hout
    subst h1 h2 h3 h5 h6 hin hout
    rfl
  · rw [ids_zero] at h22
    simpa [List.map_map, Function.comp_def] using h22
  · simpa [sinkLog] using h20
  · simpa [sinkLog] using h21

/-! ## Concurrent mode: the theorems -/
theorem make_panics {T S : Type} (task : IdTask T S) (n : Int) (sink : S)
    (calls : List (SinkCall T)) (hin : task.inputChan = none) (hout : task.outputChan = none)
    (hbig : makeLimit ≤ task.numWorkers) :
    run [.dispatcher, .dispatcher] (ExecuteMT task n sink calls) =
        some { ExecuteMT task n sink calls with pc := .panicked } ∧
    ∀ (sched : List Action) (s : Sys T S), run sched (ExecuteMT task n sink calls) = some s →
      s.workers = [] ∧ s.collector = none ∧ s.calls = calls ∧ s.pc ≠ .returned := by
  have h1 : step .dispatcher (ExecuteMT task n sink calls) =
      some { ExecuteMT task n sink calls with pc := .makeIn } := by
    simp [step, stepDispatcher, ExecuteMT, hin, hout]
  have h2 : step .dispatcher { ExecuteMT task n sink calls with pc := .makeIn } =
      some { ExecuteMT task n sink calls with pc := .panicked } := by
    simp [step, stepDispatcher, ExecuteMT, hbig]
  refine ⟨by simp [run, h1, h2], ?_⟩
  intro sched s hr
  cases sched with
  | nil => simp [run] at hr; subst hr; simp [ExecuteMT]
  | cons a rest =>
    simp only [run] at hr
    cases a with
    | worker i => simp [step, stepWorker, ExecuteMT] at hr
    | collector => simp [step, stepCollector, ExecuteMT] at hr
    | dispatcher =>
      rw [h1] at hr
      simp only [Option.some_bind] at hr
      cases rest with
      | nil => simp [run] at hr; subst hr; simp [ExecuteMT]
      | cons a2 rest2 =>
        simp only [run] at hr
        cases a2 with
        | worker i => simp [step, stepWorker, ExecuteMT] at hr
        | collector => simp [step, stepCollector, ExecuteMT] at hr
        | dispatcher =>
          rw [h2] at hr
          simp only [Option.some_bind] at hr
          have := run_panicked rest2 _ s rfl hr
          subst this
          simp [ExecuteMT]

/-- C2: on a pipeline with both queues unset and at least one worker, under every
interleaving of dispatcher, workers and collector, when `ExecuteMT(n)` has
returned the sink has observed exactly `OutputBegin`, then `OutputUpdate` calls
whose values are a permutation of `[f 0, ..., f (n-1)]`, then `OutputFinish` (so
the final sink state is the one these calls produce); and when `numWorkers` is
below `2 ^ 31` every partial execution can be continued until `ExecuteMT`
returns. -/
theorem ExecuteMT_delivers_each_value_once {T S : Type} (task : IdTask T S) (n : Int) (sink : S)
    (calls : List (SinkCall T)) (hin : task.inputChan = none) (hout : task.outputChan = none)
    (hW : 1 ≤ task.numWorkers) :
    (∀ (sched : List Action) (s : Sys T S),
      run sched (ExecuteMT task n sink calls) = some s → s.pc = .returned →
        ∃ vs : List T,
          vs.Perm ((List.range n.toNat).map (fun (k : Nat) => task.transform (k : Int))) ∧
          s.calls = calls ++ (SinkCall.OutputBegin ::
            (vs.map SinkCall.OutputUpdate ++ [SinkCall.OutputFinish])) ∧
          s.sink = replay task.output (SinkCall.OutputBegin ::
            (vs.map SinkCall.OutputUpdate ++ [SinkCall.OutputFinish])) sink) ∧
    (task.numWorkers < 2 ^ 31 →
      ∀ (sched : List Action) (s : Sys T S),
        run sched (ExecuteMT task n sink calls) = some s →
          ∃ (more : List Action) (s' : Sys T S),
            run (sched ++ more) (ExecuteMT task n sink calls) = some s' ∧ s'.pc = .returned) := by
  constructor
  · intro sched s hr hret
    obtain ⟨de, ib, ob, hinv⟩ := inv_of_not_panicked hin hout hW hr (by rw [hret]; decide)
    obtain ⟨-, hperm, hcalls, hsink⟩ := returned_spec hin hout hinv hret
    exact ⟨de, hperm, hcalls, hsink⟩
  · intro hB sched s hr
    obtain ⟨more, s', hrun, hret⟩ :=
      completes hW hB s.measure s le_rfl (inv_of_bounded hin hout hW hB hr)
    exact ⟨more, s', by simp [run_append, hr, hrun], hret⟩

/-- On `demoTask` with `demoSchedule`: `ExecuteMT(2)` returns after the sink saw
`OutputBegin, OutputUpdate 17, OutputUpdate 7, OutputFinish`, the two values out
of index order. -/
theorem ExecuteMT_delivers_each_value_once_witness :
    (demoTask.inputChan = none ∧ demoTask.outputChan = none ∧ 1 ≤ demoTask.numWorkers ∧
      demoTask.numWorkers < 2 ^ 31) ∧
    (∃ s, run demoSchedule (ExecuteMT demoTask 2 [] []) = some s ∧ s.pc = .returned ∧
      s.calls = [.OutputBegin, .OutputUpdate 17, .OutputUpdate 7, .OutputFinish] ∧
      ∃ vs : List Int, vs.Perm [7, 17] ∧
        s.calls = [] ++ (SinkCall.OutputBegin ::
          (vs.map SinkCall.OutputUpdate ++ [SinkCall.OutputFinish]))) ∧
    (∃ (more : List Action) (s' : Sys Int (List (SinkCall Int))),
      run (demoSchedule.take 12 ++ more) (ExecuteMT demoTask 2 [] []) = some s' ∧
        s'.pc = .returned) := by
  have hthm := ExecuteMT_delivers_each_value_once demoTask 2 [] [] (by decide) (by decide)
    (by decide)
  refine ⟨by decide, ?_, ?_⟩
  · have hsome : (run demoSchedule (ExecuteMT demoTask 2 [] [])).isSome = true := by decide
    obtain ⟨s, hs⟩ := Option.isSome_iff_exists.mp hsome
    have hpc : (run demoSchedule (ExecuteMT demoTask 2 [] [])).map (fun s => (s.pc, s.calls)) =
        some (.returned, [.OutputBegin, .OutputUpdate 17, .OutputUpdate 7, .OutputFinish]) := by
      decide
    rw [hs] at hpc
    simp only [Option.map_some', Option.some.injEq, Prod.mk.injEq] at hpc
    obtain ⟨vs, hperm, hcalls, -⟩ := hthm.1 demoSchedule s hs hpc.1
    exact ⟨s, hs, hpc.1, hpc.2, vs, by simpa using hperm, hcalls⟩
  · have hsome : (run (demoSchedule.take 12) (ExecuteMT demoTask 2 [] [])).isSome = true := by
      decide
    obtain ⟨s, hs⟩ := Option.isSome_iff_exists.mp hsome
    exact hthm.2 (by decide) (demoSchedule.take 12) s hs

/-- C7, counterexample: `hugeTask` has both queues unset and `numWorkers = 2 ^ 61`,
yet `ExecuteMT(2)` on it panics in `make` at line 52: after two dispatcher steps
it has not returned and no goroutine can take a step, and no schedule reaches
the return. -/
theorem ExecuteMT_panics_in_make :
    (hugeTask.inputChan = none ∧ hugeTask.outputChan = none ∧ 1 ≤ hugeTask.numWorkers) ∧
    ∃ s, run [.dispatcher, .dispatcher] (ExecuteMT hugeTask 2 [] []) = some s ∧
      s.pc = .panicked ∧ s.pc ≠ .returned ∧ (∀ a : Action, step a s = none) ∧
      ∀ (sched : List Action) (s' : Sys Int (List (SinkCall Int))),
        run sched (ExecuteMT hugeTask 2 [] []) = some s' → s'.pc ≠ .returned := by
  have h := make_panics hugeTask 2 [] [] rfl rfl (by decide)
  refine ⟨by decide, _, h.1, rfl, by decide, fun a => step_panicked a _ rfl, ?_⟩
  intro sched s' hr
  exact (h.2 sched s' hr).2.2.2

/-- C7, amended: on a pipeline with both queues unset and `1 ≤ numWorkers < 2 ^ 31`,
no configuration reachable during `ExecuteMT(n)` has panicked and every
reachable configuration in which `ExecuteMT` has not returned lets some
goroutine take a step, so the call runs to completion. For every
`numWorkers ≥ 1`, a reachable configuration that has neither returned nor
panicked lets some goroutine take a step (the queues, the closes, the
`WaitGroup` and the handshake never deadlock), and every schedule has at most
`17 + 6 * max n 0 + 3 * numWorkers` steps. -/
theorem ExecuteMT_never_stuck {T S : Type} (task : IdTask T S) (n : Int) (sink : S)
    (calls : List (SinkCall T)) (hin : task.inputChan = none) (hout : task.outputChan = none)
    (hW : 1 ≤ task.numWorkers) (sched : List Action) (s : Sys T S)
    (hr : run sched (ExecuteMT task n sink calls) = some s) :
    (task.numWorkers < 2 ^ 31 →
      s.pc ≠ .panicked ∧
      (s.pc ≠ .returned → ∃ (a : Action) (s' : Sys T S), step a s = some s')) ∧
    (s.pc ≠ .returned → s.pc ≠ .panicked → ∃ (a : Action) (s' : Sys T S), step a s = some s') ∧
    sched.length ≤ 17 + 6 * n.toNat + 3 * task.numWorkers.toNat := by
  have hstep : s.pc ≠ .returned → s.pc ≠ .panicked →
      ∃ (a : Action) (s' : Sys T S), step a s = some s' := by
    intro hret hp
    obtain ⟨de, ib, ob, hinv⟩ := inv_of_not_panicked hin hout hW hr hp
    obtain ⟨a, ha⟩ := progress hW hinv hret
    obtain ⟨s', hs'⟩ := Option.isSome_iff_exists.mp ha
    exact ⟨a, s', hs'⟩
  refine ⟨?_, hstep, ?_⟩
  · intro hB
    obtain ⟨de, ib, ob, hinv⟩ := inv_of_bounded hin hout hW hB hr
    have hp : s.pc ≠ .panicked := DPc.ne_panicked_of_phase hinv.noPanic
    exact ⟨hp, fun hret => hstep hret hp⟩
  · have h := measure_run sched hr
    have h0 : (ExecuteMT task n sink calls).measure =
        17 + 6 * n.toNat + 3 * task.numWorkers.toNat := by
      simp [Sys.measure, ExecuteMT, DPc.rank, CState.rank, queued, hin, hout]
    omega

/-- On `demoTask`, nine steps into `demoSchedule` the dispatcher is at the head of
the dispatch loop with both indices sent, and a goroutine can step. -/
theorem ExecuteMT_never_stuck_witness :
    (demoTask.inputChan = none ∧ demoTask.outputChan = none ∧ 1 ≤ demoTask.numWorkers ∧
      demoTask.numWorkers < 2 ^ 31) ∧
    ∃ s, run (demoSchedule.take 9) (ExecuteMT demoTask 2 [] []) = some s ∧
      s.pc = .feed 2 ∧ s.pc ≠ .panicked ∧ ∃ (a : Action) (s' : Sys _ _), step a s = some s' := by
  refine ⟨by decide, ?_⟩
  have hsome : (run (demoSchedule.take 9) (ExecuteMT demoTask 2 [] [])).isSome = true := by decide
  obtain ⟨s, hs⟩ := Option.isSome_iff_exists.mp hsome
  have hpc : (run (demoSchedule.take 9) (ExecuteMT demoTask 2 [] [])).map (fun s => s.pc) =
      some (.feed 2) := by decide
  rw [hs] at hpc
  simp only [Option.map_some', Option.some.injEq] at hpc
  have h := (ExecuteMT_never_stuck demoTask 2 [] [] (by decide) (by decide) (by decide)
    (demoSchedule.take 9) s hs).1 (by decide)
  exact ⟨s, hs, hpc, h.1, h.2 (by rw [hpc]; decide)⟩

theorem callChain_task {T S : Type} {task : IdTask T S} (hin : task.inputChan = none)
    (hout : task.outputChan = none) (hW : 1 ≤ task.numWorkers)
    (chain : List (Int × List Action)) :
    ∀ (st0 st : IdTask T S × S × List (SinkCall T)), st0.1 = task →
      callChain st0 chain = some st → st.1 = task := by
  induction chain with
  | nil => intro st0 st h0 h; simp [callChain] at h; subst h; exact h0
  | cons c rest ih =>
    intro st0 st h0 h
    obtain ⟨n, sched⟩ := c
    simp only [callChain] at h
    cases hrun : run sched (ExecuteMT st0.1 n st0.2.1 st0.2.2) with
    | none => rw [hrun] at h; simp at h
    | some s =>
      rw [hrun] at h
      simp only at h
      split at h
      · rename_i hret
        rw [h0] at hrun
        obtain ⟨de, ib, ob, hinv⟩ :=
          inv_of_not_panicked hin hout hW hrun (by rw [hret]; decide)
        exact ih _ st (returned_spec hin hout hinv hret).1 h
      · simp at h

/-- C6: after any number of consecutive `ExecuteMT` calls that each returned, on a
pipeline that started with both queues unset and at least one worker, the
pipeline is the original one again (both queues `nil`, `transform`, `output`,
`numWorkers` unchanged); the next `ExecuteMT(n)` passes the guard (no
re-entrancy panic), panics nowhere when `numWorkers` is below `2 ^ 31`, and
when it returns it has left both queues `nil` and appended its own
`OutputBegin`, a permutation of the `n` updates, `OutputFinish` to the history
of sink calls. -/
theorem ExecuteMT_releases_run_state {T S : Type} (task : IdTask T S) (sink : S)
    (calls : List (SinkCall T)) (hin : task.inputChan = none) (hout : task.outputChan = none)
    (hW : 1 ≤ task.numWorkers) (chain : List (Int × List Action))
    (st : IdTask T S × S × List (SinkCall T))
    (hchain : callChain (task, sink, calls) chain = some st) :
    st.1 = task ∧
    (∀ n : Int, step .dispatcher (ExecuteMT st.1 n st.2.1 st.2.2) =
      some { ExecuteMT st.1 n st.2.1 st.2.2 with pc := .makeIn }) ∧
    ∀ (n : Int) (sched : List Action) (s : Sys T S),
      run sched (ExecuteMT st.1 n st.2.1 st.2.2) = some s →
        (task.numWorkers < 2 ^ 31 → s.pc ≠ .panicked) ∧
        (s.pc = .returned →
          s.task.inputChan = none ∧ s.task.outputChan = none ∧ s.task = task ∧
          ∃ vs : List T,
            vs.Perm ((List.range n.toNat).map (fun (k : Nat) => task.transform (k : Int))) ∧
            s.calls = st.2.2 ++ (SinkCall.OutputBegin ::
              (vs.map SinkCall.OutputUpdate ++ [SinkCall.OutputFinish]))) := by
  have htask : st.1 = task := callChain_task hin hout hW chain _ st rfl hchain
  refine ⟨htask, ?_, ?_⟩
  · intro n
    simp [step, stepDispatcher, ExecuteMT, htask, hin, hout]
  intro n sched s hr
  rw [htask] at hr
  constructor
  · intro hB
    obtain ⟨de, ib, ob, hinv⟩ := inv_of_bounded hin hout hW hB hr
    exact DPc.ne_panicked_of_phase hinv.noPanic
  intro hret
  obtain ⟨de, ib, ob, hinv⟩ := inv_of_not_panicked hin hout hW hr (by rw [hret]; decide)
  obtain ⟨ht, hperm, hcalls, -⟩ := returned_spec hin hout hinv hret
  exact ⟨by rw [ht]; exact hin, by rw [ht]; exact hout, ht, de, hperm, hcalls⟩

/-- Three consecutive `ExecuteMT(2)` calls on `demoTask`: the third returns with
both queues nil and three begin / update / finish groups in the history. -/
theorem ExecuteMT_releases_run_state_witness :
    (demoTask.inputChan = none ∧ demoTask.outputChan = none ∧ 1 ≤ demoTask.numWorkers) ∧
    ∃ st s, callChain (demoTask, [], []) [(2, demoSchedule), (2, demoSchedule)] = some st ∧
      run demoSchedule (ExecuteMT st.1 2 st.2.1 st.2.2) = some s ∧
      s.pc = .returned ∧ s.task.inputChan = none ∧ s.task.outputChan = none ∧
      s.calls =
        [.OutputBegin, .OutputUpdate 17, .OutputUpdate 7, .OutputFinish,
         .OutputBegin, .OutputUpdate 17, .OutputUpdate 7, .OutputFinish,
         .OutputBegin, .OutputUpdate 17, .OutputUpdate 7, .OutputFinish] := by
  refine ⟨by decide, ?_⟩
  have hsome : (callChain (demoTask, [], []) [(2, demoSchedule), (2, demoSchedule)]).isSome =
      true := by decide
  obtain ⟨st, hst⟩ := Option.isSome_iff_exists.mp hsome
  have h := ExecuteMT_releases_run_state demoTask [] [] (by decide) (by decide) (by decide)
    [(2, demoSchedule), (2, demoSchedule)] st hst
  have hsome2 : ((callChain (demoTask, [], []) [(2, demoSchedule), (2, demoSchedule)]).bind
      (fun st => run demoSchedule (ExecuteMT st.1 2 st.2.1 st.2.2))).isSome = true := by decide
  rw [hst] at hsome2
  obtain ⟨s, hs⟩ := Option.isSome_iff_exists.mp hsome2
  simp only [Option.some_bind] at hs
  have hfin : ((callChain (demoTask, [], []) [(2, demoSchedule), (2, demoSchedule)]).bind
      (fun st => run demoSchedule (ExecuteMT st.1 2 st.2.1 st.2.2))).map
        (fun s => (s.pc, s.calls)) =
      some (.returned,
        [.OutputBegin, .OutputUpdate 17, .OutputUpdate 7, .OutputFinish,
         .OutputBegin, .OutputUpdate 17, .OutputUpdate 7, .OutputFinish,
         .OutputBegin, .OutputUpdate 17, .OutputUpdate 7, .OutputFinish]) := by decide
  rw [hst] at hfin
  simp only [Option.some_bind, hs, Option.map_some', Option.some.injEq, Prod.mk.injEq] at hfin
  have h2 := (h.2.2 2 demoSchedule s hs).2 hfin.1
  exact ⟨st, s, hst, hs, hfin.1, h2.1, h2.2.1, hfin.2⟩

/-- C4, counterexample: on `demoTask`, after the first `ExecuteMT(2)` call has
passed its guard and before it has stored its queues (it is at line 52 and has
not returned), a second `ExecuteMT(5)` call on the same pipeline passes the
guard too and goes on to allocate queues instead of panicking. -/
theorem overlapping_call_passes_guard :
    ∃ s1 s2, run [.dispatcher] (ExecuteMT demoTask 2 [] []) = some s1 ∧
      s1.pc = .makeIn ∧
      step .dispatcher (ExecuteMT s1.task 5 s1.sink s1.calls) = some s2 ∧
      s2.pc = .makeIn :=
  ⟨{ ExecuteMT demoTask 2 [] [] with pc := .makeIn },
   { ExecuteMT demoTask 5 [] [] with pc := .makeIn }, rfl, rfl, rfl, rfl⟩

/-- C4, amended: a second `ExecuteMT` call that evaluates its guard while a prior
call on the same pipeline is running with its input queue stored (line 52 done)
and its output queue not yet cleared (line 83 not done) panics; a second call
that evaluates its guard before the prior call executed line 52, or after it
cleared both queues, passes the guard. -/
theorem overlapping_call_panics_while_queues_set {T S : Type} (task : IdTask T S) (n : Int)
    (sink : S) (calls : List (SinkCall T)) (hin : task.inputChan = none)
    (hout : task.outputChan = none) (hW : 1 ≤ task.numWorkers) (sched : List Action)
    (s : Sys T S) (hr : run sched (ExecuteMT task n sink calls) = some s) (n2 : Int) :
    (s.pc ≠ .guard → s.pc ≠ .makeIn → s.pc ≠ .returned → s.pc ≠ .panicked →
      step .dispatcher (ExecuteMT s.task n2 s.sink s.calls) =
        some { ExecuteMT s.task n2 s.sink s.calls with pc := .panicked }) ∧
    (s.pc = .guard ∨ s.pc = .makeIn ∨ s.pc = .returned →
      step .dispatcher (ExecuteMT s.task n2 s.sink s.calls) =
        some { ExecuteMT s.task n2 s.sink s.calls with pc := .makeIn }) := by
  constructor
  · intro h1 h2 h3 h4
    obtain ⟨de, ib, ob, hinv⟩ := inv_of_not_panicked hin hout hW hr h4
    have h5 := hinv.inChan
    have h6 := hinv.outChan
    have h7 := hinv.noPanic
    have hph : 2 ≤ s.pc.phase ∧ s.pc.phase ≤ 11 := by
      revert h1 h2 h3 h7
      cases s.pc <;> simp [DPc.phase]
    by_cases h10 : s.pc.phase ≤ 10
    · simp [hph.1, h10] at h5
      simp [step, stepDispatcher, ExecuteMT, h5]
    · have h3' : 3 ≤ s.pc.phase ∧ s.pc.phase ≤ 11 := by omega
      simp [h3'] at h6
      simp [step, stepDispatcher, ExecuteMT, h6]
  · intro h
    obtain ⟨de, ib, ob, hinv⟩ := inv_of_not_panicked hin hout hW hr
      (by rcases h with h | h | h <;> rw [h] <;> decide)
    have h5 := hinv.inChan
    have h6 := hinv.outChan
    have hph : s.pc.phase ≤ 1 ∨ s.pc.phase = 12 := by
      rcases h with h | h | h <;> simp [h, DPc.phase]
    have hi : ¬ (2 ≤ s.pc.phase ∧ s.pc.phase ≤ 10) := by omega
    have ho : ¬ (3 ≤ s.pc.phase ∧ s.pc.phase ≤ 11) := by omega
    simp only [hi, ho, if_false] at h5 h6
    simp [step, stepDispatcher, ExecuteMT, h5, h6]

/-- On `demoTask`, while the first call waits for its workers a second
`ExecuteMT(5)` call panics. -/
theorem overlapping_call_panics_while_queues_set_witness :
    (demoTask.inputChan = none ∧ demoTask.outputChan = none ∧ 1 ≤ demoTask.numWorkers) ∧
    ∃ s, run (demoSchedule.take 12) (ExecuteMT demoTask 2 [] []) = some s ∧
      s.pc = .waitWorkers ∧
      step .dispatcher (ExecuteMT s.task 5 s.sink s.calls) =
        some { ExecuteMT s.task 5 s.sink s.calls with pc := .panicked } := by
  refine ⟨by decide, ?_⟩
  have hsome : (run (demoSchedule.take 12) (ExecuteMT demoTask 2 [] [])).isSome = true := by
    decide
  obtain ⟨s, hs⟩ := Option.isSome_iff_exists.mp hsome
  have hpc : (run (demoSchedule.take 12) (ExecuteMT demoTask 2 [] [])).map (fun s => s.pc) =
      some .waitWorkers := by decide
  rw [hs] at hpc
  simp only [Option.map_some', Option.some.injEq] at hpc
  have h := (overlapping_call_panics_while_queues_set demoTask 2 [] [] (by decide) (by decide)
    (by decide) (demoSchedule.take 12) s hs 5).1
  exact ⟨s, hs, hpc,
    h (by rw [hpc]; decide) (by rw [hpc]; decide) (by rw [hpc]; decide) (by rw [hpc]; decide)⟩

theorem ExecuteMT_guard_spec {T S : Type} (task : IdTask T S) (n : Int) (sink : S)
    (calls : List (SinkCall T)) :
    (task.inputChan ≠ none ∨ task.outputChan ≠ none →
      step .dispatcher (ExecuteMT task n sink calls) =
        some { ExecuteMT task n sink calls with pc := .panicked } ∧
      ∀ (sched : List Action) (s : Sys T S),
        run sched (ExecuteMT task n sink calls) = some s →
          s = ExecuteMT task n sink calls ∨
          s = { ExecuteMT task n sink calls with pc := .panicked }) ∧
    (task.inputChan = none ∧ task.outputChan = none →
      step .dispatcher (ExecuteMT task n sink calls) =
        some { ExecuteMT task n sink calls with pc := .makeIn }) := by
  constructor
  · intro h
    have hg : (task.inputChan.isSome || task.outputChan.isSome) = true := by
      rcases h with h | h
      · cases hi : task.inputChan with
        | none => exact absurd hi h
        | some q => simp
      · cases ho : task.outputChan with
        | none => exact absurd ho h
        | some q => simp
    have hstep : step .dispatcher (ExecuteMT task n sink calls) =
        some { ExecuteMT task n sink calls with pc := .panicked } := by
      simp only [step, ExecuteMT, stepDispatcher, hg]
      simp
    refine ⟨hstep, ?_⟩
    intro sched s hr
    cases sched with
    | nil => simp [run] at hr; exact Or.inl hr.symm
    | cons a rest =>
      right
      simp only [run] at hr
      cases a with
      | dispatcher =>
        rw [hstep] at hr
        exact run_panicked rest _ s rfl (by simpa using hr)
      | worker i => simp [step, stepWorker, ExecuteMT] at hr
      | collector => simp [step, stepCollector, ExecuteMT] at hr
  · intro h
    simp [step, stepDispatcher, ExecuteMT, h.1, h.2]

/-- C3: when `inputChan` or `outputChan` of the pipeline is non-nil, the first
step of `ExecuteMT(n)` is the panic of the guard, and every configuration the
call can reach is the initial one or the panicked one: no queue allocated, no
worker or collector started, no sink call made, every field of the pipeline
unchanged. When both are nil the guard does not panic and the call goes on to
line 52. -/
theorem ExecuteMT_guard_panics {T S : Type} (task : IdTask T S) (n : Int) (sink : S)
    (calls : List (SinkCall T)) :
    (task.inputChan ≠ none ∨ task.outputChan ≠ none →
      step .dispatcher (ExecuteMT task n sink calls) =
        some { ExecuteMT task n sink calls with pc := .panicked } ∧
      ∀ (sched : List Action) (s : Sys T S),
        run sched (ExecuteMT task n sink calls) = some s →
          s = ExecuteMT task n sink calls ∨
          s = { ExecuteMT task n sink calls with pc := .panicked }) ∧
    (task.inputChan = none ∧ task.outputChan = none →
      step .dispatcher (ExecuteMT task n sink calls) =
        some { ExecuteMT task n sink calls with pc := .makeIn }) :=
  ExecuteMT_guard_spec task n sink calls

/-- A pipeline whose `inputChan` is set panics at the guard with nothing started
and nothing changed; `demoTask` passes the guard. -/
theorem ExecuteMT_guard_panics_witness :
    ((({ demoTask with inputChan := some ⟨[], 2, false⟩ } :
        IdTask Int (List (SinkCall Int))).inputChan ≠ none) ∧
      (run [.dispatcher]
        (ExecuteMT { demoTask with inputChan := some ⟨[], 2, false⟩ } 3 [] [])).map
          (fun s => (s.pc, s.workers, s.collector, s.calls, s.task.inputChan, s.task.outputChan)) =
        some (.panicked, [], none, [], some ⟨[], 2, false⟩, none)) ∧
    ((demoTask.inputChan = none ∧ demoTask.outputChan = none) ∧
      step .dispatcher (ExecuteMT demoTask 3 [] []) =
        some { ExecuteMT demoTask 3 [] [] with pc := .makeIn }) := by
  refine ⟨⟨by decide, ?_⟩, ⟨by decide, ?_⟩⟩
  · have h := ((ExecuteMT_guard_panics { demoTask with inputChan := some ⟨[], 2, false⟩ } 3
      ([] : List (SinkCall Int)) []).1 (Or.inl (by decide))).1
    simp only [run, h]
    rfl
  · exact (ExecuteMT_guard_panics demoTask 3 [] []).2 ⟨rfl, rfl⟩

/-- C8: `Execute(n)` is `ExecuteMT(n)`: it starts in the same configuration, at
the guard of `ExecuteMT`, so every schedule gives the same result for both; in
particular it panics under the same condition, and then makes no sink call
(where `ExecuteST` would call `OutputBegin`). -/
theorem Execute_is_ExecuteMT {T S : Type} (task : IdTask T S) (n : Int) (sink : S)
    (calls : List (SinkCall T)) :
    Execute task n sink calls = ExecuteMT task n sink calls ∧
    (Execute task n sink calls).pc = .guard ∧
    (∀ sched : List Action,
      run sched (Execute task n sink calls) = run sched (ExecuteMT task n sink calls)) ∧
    (task.inputChan ≠ none ∨ task.outputChan ≠ none →
      step .dispatcher (Execute task n sink calls) =
        some { ExecuteMT task n sink calls with pc := .panicked } ∧
      ∀ (sched : List Action) (s : Sys T S),
        run sched (Execute task n sink calls) = some s → s.sink = sink ∧ s.calls = calls) := by
  refine ⟨rfl, rfl, fun _ => rfl, ?_⟩
  intro h
  have hg := (ExecuteMT_guard_spec task n sink calls).1 h
  refine ⟨hg.1, ?_⟩
  intro sched s hr
  rcases hg.2 sched s hr with h1 | h1 <;> subst h1 <;> exact ⟨rfl, rfl⟩

/-- `Execute` on a pipeline whose `outputChan` is set panics at the guard. -/
theorem Execute_is_ExecuteMT_witness :
    (({ demoTask with outputChan := some ⟨[], 2, false⟩ } :
        IdTask Int (List (SinkCall Int))).outputChan ≠ none) ∧
    step .dispatcher (Execute { demoTask with outputChan := some ⟨[], 2, false⟩ } 3 [] []) =
      some { ExecuteMT { demoTask with outputChan := some ⟨[], 2, false⟩ } 3 [] [] with
        pc := .panicked } :=
  ⟨by decide,
   ((Execute_is_ExecuteMT { demoTask with outputChan := some ⟨[], 2, false⟩ } 3
      ([] : List (SinkCall Int)) []).2.2.2 (Or.inr (by decide))).1⟩

/-- C10, counterexample: for the requested count `2 ^ 61`, `New` returns a pipeline
with `numWorkers ≥ 1` and both queues nil whose first `ExecuteMT` passes the
guard and then panics in `make` at line 52; no configuration it reaches has a
worker. -/
theorem New_huge_count_starts_no_worker :
    hugeTask = New (fun i => 10 * i + 7) (recorder Int) 2305843009213693952 4 ∧
    1 ≤ hugeTask.numWorkers ∧ hugeTask.inputChan = none ∧ hugeTask.outputChan = none ∧
    step .dispatcher (ExecuteMT hugeTask 2 [] []) =
      some { ExecuteMT hugeTask 2 [] [] with pc := .makeIn } ∧
    run [.dispatcher, .dispatcher] (ExecuteMT hugeTask 2 [] []) =
      some { ExecuteMT hugeTask 2 [] [] with pc := .panicked } ∧
    ∀ (sched : List Action) (s : Sys Int (List (SinkCall Int))),
      run sched (ExecuteMT hugeTask 2 [] []) = some s → s.workers = [] := by
  have h := make_panics hugeTask 2 [] [] rfl rfl (by decide)
  refine ⟨rfl, by decide, rfl, rfl, rfl, h.1, ?_⟩
  intro sched s hr
  exact (h.2 sched s hr).1

/-- C10, amended: for every requested count `w` and every CPU count `c ≥ 1` whose
double fits a Go `int`, `New` returns a pipeline with `numWorkers ≥ 1` (between
2 and 16 when `w ≤ 0`) and both queues nil, so the first `ExecuteMT` on it
passes the guard; when `w` is below `2 ^ 31` it goes on to start a worker
(four dispatcher steps in, one worker runs and the `WaitGroup` counts 1). -/
theorem New_ready {T S : Type} (transform : Int → T) (output : IdTaskOutput T S) (w c n : Int)
    (sink : S) (calls : List (SinkCall T)) (hc : 1 ≤ c ∧ c < 2 ^ 62) :
    1 ≤ (New transform output w c).numWorkers ∧
    (w ≤ 0 → 2 ≤ (New transform output w c).numWorkers ∧
      (New transform output w c).numWorkers ≤ 16) ∧
    (New transform output w c).inputChan = none ∧
    (New transform output w c).outputChan = none ∧
    step .dispatcher (ExecuteMT (New transform output w c) n sink calls) =
      some { ExecuteMT (New transform output w c) n sink calls with pc := .makeIn } ∧
    (w < 2 ^ 31 →
      ∃ s, run [.dispatcher, .dispatcher, .dispatcher, .dispatcher]
          (ExecuteMT (New transform output w c) n sink calls) = some s ∧
        s.pc = .spawn 1 ∧ s.workers = [.recv] ∧ s.waitTransforms = 1) := by
  have hw : wrapInt (c * 2) = c * 2 := wrapInt_of_range (by omega) (by omega)
  have hnum : (New transform output w c).numWorkers = if w ≤ 0 then min 16 (c * 2) else w := by
    simp [New, hw]
  have h1 : 1 ≤ (New transform output w c).numWorkers := by
    rw [hnum]; split <;> omega
  refine ⟨h1, ?_, rfl, rfl, ?_, ?_⟩
  · intro hw0
    rw [hnum, if_pos hw0]
    omega
  · simp [step, stepDispatcher, ExecuteMT, New]
  · intro hB
    have hsmall : (New transform output w c).numWorkers < makeLimit := by
      rw [hnum]; unfold makeLimit; split <;> omega
    have hneg : ¬ ((New transform output w c).numWorkers < 0 ∨
        makeLimit ≤ (New transform output w c).numWorkers) := by omega
    have hpos : (0 : Int) < (New transform output w c).numWorkers := by omega
    have hin : (New transform output w c).inputChan = none := rfl
    have hout : (New transform output w c).outputChan = none := rfl
    generalize New transform output w c = p at h1 hneg hpos hin hout
    refine ⟨{ task := { p with
                inputChan := some ⟨[], p.numWorkers.toNat, false⟩
                outputChan := some ⟨[], p.numWorkers.toNat, false⟩ }
              numItems := n, pc := .spawn 1, waitTransforms := 1, workers := [.recv]
              collector := none, sink := sink, calls := calls }, ?_, rfl, rfl, rfl⟩
    simp [run, step, stepDispatcher, ExecuteMT, hneg, hpos, hin, hout, waitGroupLimit]

/-- `New` with a requested count of -3 on 4 CPUs yields 8 workers and nil queues,\nand the first `ExecuteMT` on it starts a worker. -/
theorem New_ready_witness :
    ((1 : Int) ≤ 4 ∧ (4 : Int) < 2 ^ 62 ∧ (-3 : Int) < 2 ^ 31) ∧
    (New (fun i => 10 * i + 7) (recorder Int) (-3) 4).numWorkers = 8 ∧
    1 ≤ (New (fun i => 10 * i + 7) (recorder Int) (-3) 4).numWorkers ∧
    (New (fun i => 10 * i + 7) (recorder Int) (-3) 4).inputChan = none ∧
    ∃ s, run [.dispatcher, .dispatcher, .dispatcher, .dispatcher]
        (ExecuteMT (New (fun i => 10 * i + 7) (recorder Int) (-3) 4) 2 [] []) = some s ∧
      s.pc = .spawn 1 ∧ s.workers = [.recv] ∧ s.waitTransforms = 1 :=
  ⟨by decide, by decide,
   (New_ready (fun i => 10 * i + 7) (recorder Int) (-3) 4 2 [] [] (by decide)).1,
   (New_ready (fun i => 10 * i + 7) (recorder Int) (-3) 4 2 [] [] (by decide)).2.2.1,
   (New_ready (fun i => 10 * i + 7) (recorder Int) (-3) 4 2 [] [] (by decide)).2.2.2.2.2
     (by decide)⟩

/-! ## The collector `ExecuteOutput` -/
theorem arrivals_append {T : Type} (l1 l2 : List (QAction T)) :
    arrivals (l1 ++ l2) = arrivals l1 ++ arrivals l2 := by
  induction l1 with
  | nil => rfl
  | cons a l1 ih => cases a <;> simp [arrivals, ih]

theorem arrivals_oneByOne {T : Type} (vs : List T) : arrivals (oneByOne vs) = vs := by
  induction vs with
  | nil => rfl
  | cons v vs ih => simp [oneByOne, arrivals, ih]

theorem outRun_append {T S : Type} (output : IdTaskOutput T S) (l1 l2 : List (QAction T))
    (st : OutSys T S) :
    OutSys.run output (l1 ++ l2) st = (OutSys.run output l1 st).bind (OutSys.run output l2) := by
  induction l1 generalizing st with
  | nil => simp [OutSys.run]
  | cons a l1 ih =>
    simp only [List.cons_append, OutSys.run]
    cases OutSys.step output a st with
    | none => simp
    | some s1 => simp [ih]

theorem outInv_step {T S : Type} {output : IdTaskOutput T S} {cap : Nat} {sink0 : S}
    {st st' : OutSys T S} {arrived de buf : List T} {closed : Bool} (a : QAction T)
    (h : OutInv output cap sink0 st arrived de buf closed)
    (hs : OutSys.step output a st = some st') :
    ∃ de' buf' closed', OutInv output cap sink0 st' (arrived ++ arrivals [a]) de' buf' closed' := by
  obtain ⟨c, ch, sk, cl⟩ := st
  obtain ⟨h1, h2, h3, h4, h5, h6⟩ := h
  simp only at h1 h2 h3 h4 h5 h6
  subst h1
  cases a with
  | push v =>
    simp only [OutSys.step] at hs
    split at hs
    · simp at hs
    · split at hs
      · simp at hs
        subst hs
        rename_i hcl _
        have hopen : closed = false := by simpa using hcl
        refine ⟨de, buf ++ [v], closed, ⟨rfl, ?_, ?_, h4, h5, h6⟩⟩
        · simp [arrivals, h2]
        · intro hst
          have := (h3 hst).2
          simp [hopen] at this
      · simp at hs
  | close =>
    simp only [OutSys.step] at hs
    split at hs
    · simp at hs
    · simp at hs
      subst hs
      refine ⟨de, buf, true, ⟨rfl, ?_, ?_, h4, h5, h6⟩⟩
      · simp [arrivals, h2]
      · intro hst
        exact ⟨(h3 hst).1, rfl⟩
  | collector =>
    cases c with
    | begin =>
      simp [OutSys.step, ExecuteOutput.step] at hs
      subst hs
      have hde : de = [] := h4 rfl
      subst hde
      refine ⟨[], buf, closed, ⟨rfl, ?_, ?_, ?_, ?_, ?_⟩⟩
      · simpa [arrivals, CState.pending] using h2
      · simp [CState.stage]
      · simp
      · simp [sinkLog, h5]
      · simp [sinkLog, h6, replay, SinkCall.apply]
    | recv =>
      cases buf with
      | nil =>
        simp only [OutSys.step, ExecuteOutput.step] at hs
        by_cases hcl : closed = true
        · simp [hcl] at hs
          subst hs
          refine ⟨de, [], closed, ⟨by simp [hcl], ?_, ?_, ?_, ?_, ?_⟩⟩
          · simpa [arrivals, CState.pending] using h2
          · intro _; exact ⟨rfl, hcl⟩
          · simp
          · simp [sinkLog, h5]
          · simp [sinkLog, h6]
        · simp [hcl] at hs
      | cons v rest =>
        simp [OutSys.step, ExecuteOutput.step] at hs
        subst hs
        refine ⟨de, rest, closed, ⟨rfl, ?_, ?_, ?_, ?_, ?_⟩⟩
        · simpa [arrivals, CState.pending] using h2
        · simp [CState.stage]
        · simp
        · simp [sinkLog, h5]
        · simp [sinkLog, h6]
    | update v =>
      simp [OutSys.step, ExecuteOutput.step] at hs
      subst hs
      refine ⟨de ++ [v], buf, closed, ⟨rfl, ?_, ?_, ?_, ?_, ?_⟩⟩
      · simpa [arrivals, CState.pending] using h2
      · simp [CState.stage]
      · simp
      · simp [sinkLog, h5]
      · simp [sinkLog, h6, replay, SinkCall.apply]
    | finish =>
      simp [OutSys.step, ExecuteOutput.step] at hs
      subst hs
      refine ⟨de, buf, closed, ⟨rfl, ?_, ?_, ?_, ?_, ?_⟩⟩
      · simpa [arrivals, CState.pending] using h2
      · intro _; exact h3 (by simp [CState.stage])
      · simp
      · simp [sinkLog, h5]
      · simp [sinkLog, h6, replay, SinkCall.apply]
    | signal => simp [OutSys.step, ExecuteOutput.step] at hs
    | exited => simp [OutSys.step, ExecuteOutput.step] at hs

theorem outInv_run {T S : Type} {output : IdTaskOutput T S} {cap : Nat} {sink0 : S}
    (sched : List (QAction T)) :
    ∀ {st st' : OutSys T S} {arrived : List T},
      (∃ de buf closed, OutInv output cap sink0 st arrived de buf closed) →
      OutSys.run output sched st = some st' →
      ∃ de buf closed, OutInv output cap sink0 st' (arrived ++ arrivals sched) de buf closed := by
  induction sched with
  | nil =>
    intro st st' arrived h hr
    simp [OutSys.run] at hr
    subst hr
    simpa [arrivals] using h
  | cons a rest ih =>
    intro st st' arrived h hr
    simp only [OutSys.run] at hr
    cases hstep : OutSys.step output a st with
    | none => rw [hstep] at hr; simp at hr
    | some s1 =>
      rw [hstep] at hr
      obtain ⟨de, buf, closed, hinv⟩ := h
      have h1 := outInv_step a hinv hstep
      have h2 := ih h1 (by simpa using hr)
      have harr : arrived ++ arrivals (a :: rest) = arrived ++ arrivals [a] ++ arrivals rest := by
        rw [List.append_assoc, ← arrivals_append]
        rfl
      rw [harr]
      exact h2

theorem outInv_init {T S : Type} (output : IdTaskOutput T S) (cap : Nat) (sink0 : S) :
    OutInv output cap sink0 ⟨.begin, some ⟨[], cap, false⟩, sink0, []⟩ [] [] [] false := by
  constructor <;> simp [CState.pending, CState.stage, sinkLog, replay]

theorem oneByOne_run {T S : Type} (output : IdTaskOutput T S) (cap : Nat) (vs : List T) :
    ∀ (sk : S) (cl : List (SinkCall T)),
      ∃ sk' cl', OutSys.run output (oneByOne vs) ⟨.recv, some ⟨[], cap + 1, false⟩, sk, cl⟩ =
        some ⟨.recv, some ⟨[], cap + 1, false⟩, sk', cl'⟩ := by
  induction vs with
  | nil => intro sk cl; exact ⟨sk, cl, rfl⟩
  | cons v vs ih =>
    intro sk cl
    obtain ⟨sk', cl', h⟩ := ih (output.OutputUpdate v sk) (cl ++ [.OutputUpdate v])
    refine ⟨sk', cl', ?_⟩
    simp [oneByOne, OutSys.run, OutSys.step, ExecuteOutput.step, h]

/-- C9: the collector running `ExecuteOutput` on a result queue fed by an arbitrary
producer: at every moment the sink calls made so far are a prefix of
`OutputBegin, OutputUpdate(v1), ..., OutputUpdate(vk), OutputFinish` where
`v1..vk` are the values sent on the queue in arrival order; `OutputBegin` is
called before the first value is pulled; the loop ends only when the queue is
empty and closed, all arrived values having been passed to the sink; and once
`ExecuteOutput` has returned the calls are exactly that sequence. For every
finite sequence of values there is an execution in which exactly these values
arrive and `ExecuteOutput` returns. -/
theorem ExecuteOutput_serialises {T S : Type} (output : IdTaskOutput T S) (cap : Nat)
    (sink0 : S) :
    (∀ (sched : List (QAction T)) (st : OutSys T S),
      OutSys.run output sched ⟨.begin, some ⟨[], cap, false⟩, sink0, []⟩ = some st →
        st.calls <+: (SinkCall.OutputBegin ::
          ((arrivals sched).map SinkCall.OutputUpdate ++ [SinkCall.OutputFinish])) ∧
        (st.c = .begin → st.calls = [] ∧
          ∃ closed, st.ch = some ⟨arrivals sched, cap, closed⟩) ∧
        (st.c = .finish ∨ st.c = .signal → st.ch = some ⟨[], cap, true⟩) ∧
        (st.c = .finish →
          st.calls = SinkCall.OutputBegin :: (arrivals sched).map SinkCall.OutputUpdate) ∧
        (st.c = .signal →
          st.calls = SinkCall.OutputBegin ::
            ((arrivals sched).map SinkCall.OutputUpdate ++ [SinkCall.OutputFinish]) ∧
          st.sink = replay output (SinkCall.OutputBegin ::
            ((arrivals sched).map SinkCall.OutputUpdate ++ [SinkCall.OutputFinish])) sink0)) ∧
    (∀ vs : List T, ∃ (sched : List (QAction T)) (st : OutSys T S),
      arrivals sched = vs ∧
      OutSys.run output sched ⟨.begin, some ⟨[], cap + 1, false⟩, sink0, []⟩ = some st ∧
      st.c = .signal) := by
  constructor
  · intro sched st hr
    obtain ⟨de, buf, closed, hinv⟩ :=
      outInv_run sched ⟨[], [], false, outInv_init output cap sink0⟩ hr
    obtain ⟨c, ch, sk, cl⟩ := st
    obtain ⟨h1, h2, h3, h4, h5, h6⟩ := hinv
    simp only [List.nil_append] at h1 h2 h3 h4 h5 h6
    simp only
    subst h1 h5 h6
    rw [h2]
    cases c with
    | begin =>
      have hde : de = [] := h4 rfl
      subst hde
      simp [sinkLog, CState.pending]
    | recv => simp [sinkLog, CState.pending]
    | update v => simp [sinkLog, CState.pending]
    | finish =>
      obtain ⟨hb, hc⟩ := h3 (by simp [CState.stage])
      subst hb hc
      simp [sinkLog, CState.pending]
    | signal =>
      obtain ⟨hb, hc⟩ := h3 (by simp [CState.stage])
      subst hb hc
      simp [sinkLog, CState.pending]
    | exited =>
      obtain ⟨hb, hc⟩ := h3 (by simp [CState.stage])
      subst hb hc
      simp [sinkLog, CState.pending]
  · intro vs
    obtain ⟨sk', cl', h⟩ := oneByOne_run output cap vs (output.OutputBegin sink0)
      [SinkCall.OutputBegin]
    refine ⟨[.collector] ++ (oneByOne vs ++ [.close, .collector, .collector]),
      ⟨.signal, some ⟨[], cap + 1, true⟩, output.OutputFinish sk',
        cl' ++ [SinkCall.OutputFinish]⟩, ?_, ?_, rfl⟩
    · simp [arrivals_append, arrivals_oneByOne, arrivals]
    · rw [outRun_append]
      simp only [OutSys.run, OutSys.step, ExecuteOutput.step, Option.some_bind, List.nil_append]
      rw [outRun_append, h]
      simp [OutSys.run, OutSys.step, ExecuteOutput.step]

/-- Two values sent before the collector pulls: the sink sees them in arrival
order between `OutputBegin` and `OutputFinish`. -/
theorem ExecuteOutput_serialises_witness :
    ∃ st, OutSys.run (recorder Int)
        [.collector, .push 5, .push 3, .collector, .collector, .close, .collector, .collector,
         .collector, .collector]
        ⟨.begin, some ⟨[], 2, false⟩, [], []⟩ = some st ∧
      st.c = .signal ∧
      st.calls = [.OutputBegin, .OutputUpdate 5, .OutputUpdate 3, .OutputFinish] := by
  have hsome : (OutSys.run (recorder Int)
      [.collector, .push 5, .push 3, .collector, .collector, .close, .collector, .collector,
       .collector, .collector]
      ⟨.begin, some ⟨[], 2, false⟩, [], []⟩).isSome = true := by decide
  obtain ⟨st, hst⟩ := Option.isSome_iff_exists.mp hsome
  have hc : (OutSys.run (recorder Int)
      [.collector, .push 5, .push 3, .collector, .collector, .close, .collector, .collector,
       .collector, .collector]
      ⟨.begin, some ⟨[], 2, false⟩, [], []⟩).map (fun st => st.c) = some .signal := by decide
  rw [hst] at hc
  simp only [Option.map_some', Option.some.injEq] at hc
  have h := ((ExecuteOutput_serialises (recorder Int) 2 ([] : List (SinkCall Int))).1 _ st
    hst).2.2.2.2 hc
  exact ⟨st, hst, hc, h.1⟩

end idtask
